import Mathlib

/-!
Verification development for the BCAT alignment scoring engine
(src/bcat-scorer/scorer.py and src/bcat-scorer/api.py).

Python values occurring in a signal bundle are modelled by the inductive
type `Val`; Python floats are modelled by `ℚ` (the claims under study are
order/structure properties, not bit-level floating point facts).
Python dicts are association lists with first-match lookup and
replace-or-append assignment, mirroring insertion-order semantics.
A raised Python exception is modelled by `Except.error`.

`math.sqrt` is kept abstract as a function parameter `sq : ℚ → ℚ`
threaded to the alignment computation; no claim depends on actual
square-root values.

For the frame/no-mutation claim, dict identity matters, so a small heap
of dict objects (`Heap`) is also provided: the `Val.ref` constructor is a
reference into that heap.  The pure driver uses inline `Val.dict`
values and an empty heap; the heap driver allocates the section copies
performed by `dict(...)` in the source and performs the local dict
writes through the heap.
-/

set_option linter.unusedVariables false

deriving instance DecidableEq for Except

/-- A Python value as it can occur in a signal bundle: a number (int/float,
modelled as `ℚ`), a string, a bool, `None`, an inline dict, or a reference
to a heap-allocated dict (used only by the heap model). -/
inductive Val where
  | num (q : ℚ)
  | str (s : String)
  | bool (b : Bool)
  | none
  | dict (d : List (String × Val))
  | ref (r : ℕ)

/-- A Python dict: association list from string keys to values. -/
abbrev PyDict := List (String × Val)

/-- The normalized sub-metric set: an insertion-ordered dict from metric
name to a float or to Python `None` (the source stores `None` results of
the scalar normalizers directly into the dict). -/
abbrev Out := List (String × Option ℚ)

/-- Dict lookup, `d[k]` or `d.get(k)`: first entry with the key. -/
def getV (d : PyDict) (k : String) : Option Val :=
  (d.find? (fun p => p.1 == k)).map Prod.snd

/-- Key presence test, `k in d`. -/
def hasK (d : PyDict) (k : String) : Bool :=
  d.any (fun p => p.1 == k)

/-- `d.get(k, dflt)`. -/
def getD (d : PyDict) (k : String) (dflt : Val) : Val :=
  (getV d k).getD dflt

/-- `d.get(k)` collapsed with Python `None`: an absent key and a key whose
stored value is `None` both give `none` (the source only uses this form in
positions guarded by `is not None` / `isinstance` tests). -/
def getN (d : PyDict) (k : String) : Option Val :=
  match getV d k with
  | some Val.none => Option.none
  | o => o

/-- Dict assignment `d[k] = v`: replace in place if the key exists,
append otherwise (Python dicts keep first-insertion key order). -/
def setV (d : PyDict) (k : String) (v : Val) : PyDict :=
  if hasK d k then d.map (fun p => if p.1 == k then (k, v) else p) else d ++ [(k, v)]

/-- A heap of dict objects, for the frame/no-mutation claim: `mem` maps
object ids to dict contents, ids below `next` are the allocated ones. -/
structure Heap where
  mem : List (ℕ × PyDict)
  next : ℕ

/-- Heap lookup of a dict object. -/
def hget (h : Heap) (r : ℕ) : Option PyDict :=
  (h.mem.find? (fun p => p.1 == r)).map Prod.snd

/-- Allocate a fresh dict object (models `dict(...)` building a new dict). -/
def halloc (h : Heap) (d : PyDict) : ℕ × Heap :=
  (h.next, ⟨(h.next, d) :: h.mem, h.next + 1⟩)

/-- Overwrite the contents of an existing dict object (models an in-place
dict write `x[k] = v` on the object `x` refers to). -/
def hset (h : Heap) (r : ℕ) (d : PyDict) : Heap :=
  ⟨h.mem.map (fun p => if p.1 == r then (r, d) else p), h.next⟩

/-- The empty heap, used by the pure driver (pure bundles use `Val.dict`). -/
def emptyHeap : Heap := ⟨[], 0⟩

/-- Python truthiness of a value (`0`, `""`, `False`, `None` and the empty
dict are falsy). -/
def isTruthy (h : Heap) : Val → Bool
  | .num q => q != 0
  | .str s => s != ""
  | .bool b => b
  | .none => false
  | .dict d => !d.isEmpty
  | .ref r =>
    match hget h r with
    | some d => !d.isEmpty
    | Option.none => true

/-- View a value as a dict if it is one (`isinstance(v, dict)`), following
heap references. -/
def asDict (h : Heap) : Val → Option PyDict
  | .dict d => some d
  | .ref r => hget h r
  | _ => Option.none

/-- Python `s.lower()` (any non-ASCII subtleties are immaterial here). -/
def pyLower (s : String) : String := String.mk (s.data.map Char.toLower)

/-- Python `s.startswith(pre)`. -/
def pyStarts (s pre : String) : Bool := pre.data.isPrefixOf s.data

/-- Value of a nonempty digit string. -/
def digitsToNat (cs : List Char) : ℕ :=
  cs.foldl (fun a c => a * 10 + (c.toNat - 48)) 0

/-- Parse a plain decimal literal, an optional sign then digits with at
most one dot. This models the numeric strings accepted by Python
`float(str)`; exotic forms (exponents, inf/nan) are modelled as
unparseable, which no claim depends on. -/
def parseDec? (s : String) : Option ℚ :=
  let core : List Char → Option ℚ := fun cs =>
    match cs.span (fun c => c.isDigit) with
    | (ds, []) =>
      if ds.isEmpty then Option.none else some ((digitsToNat ds : ℤ) : ℚ)
    | (ds, c :: fs) =>
      if c = '.' ∧ fs.all (fun d => d.isDigit) ∧ (ds ≠ [] ∨ fs ≠ []) then
        some (((digitsToNat ds : ℤ) : ℚ) + (digitsToNat fs : ℚ) / ((10 : ℚ) ^ fs.length))
      else Option.none
  match (s.trim).data with
  | '-' :: rest => (core rest).map (fun q => -q)
  | '+' :: rest => core rest
  | rest => core rest

/-- Python `float(v)` as a partial coercion: numbers pass through, bools
become 0/1, numeric strings are parsed, everything else fails. -/
def pyFloat? (v : Val) : Option ℚ :=
  match v with
  | .num q => some q
  | .bool b => some (if b then 1 else 0)
  | .str s => parseDec? s
  | _ => Option.none

/-- `clamp(x, lo, hi) = max(lo, min(hi, x))`. -/
def clampQ (x lo hi : ℚ) : ℚ := max lo (min hi x)

/-- Numeric core of `to100`: a value at most 1 is read as a fraction and
scaled by 100, larger values are taken as already on the 0-100 scale;
the result is clamped to [0, 100]. -/
def to100q (v : ℚ) : ℚ := clampQ (if v ≤ 1 then v * 100 else v) 0 100

/-- `to100(v)`: coerce then scale/clamp; `None` when coercion fails. -/
def to100 (v : Val) : Option ℚ := (pyFloat? v).map to100q

/-- `inv100(v) = 100 - to100(v)`, propagating `None`. -/
def inv100 (v : Val) : Option ℚ := (to100 v).map (fun x => 100 - x)

/-- Numeric core of `minmax`: degenerate range yields 0, otherwise linear
rescale to [0,100] with clamping. -/
def minmaxq (v lo hi : ℚ) : ℚ :=
  if lo = hi then 0 else clampQ ((v - lo) / (hi - lo) * 100) 0 100

/-- `minmax(v, lo, hi)`: coercion failure yields `None` (the coercion is
attempted before the degenerate-range test, as in the source). -/
def minmax (v : Val) (lo hi : ℚ) : Option ℚ := (pyFloat? v).map (minmaxq · lo hi)

/-- `talk_balance_score(ratio) = clamp(100 - abs(r - 0.5) * 200, 0, 100)`. -/
def talk_balance_score (v : Val) : Option ℚ :=
  (pyFloat? v).map (fun r => clampQ (100 - |r - 1/2| * 200) 0 100)

/-- `_avg(*vals)`: plain average of the non-`None` inputs, `None` if all
are absent. -/
def pyAvg (vals : List (Option ℚ)) : Option ℚ :=
  let v := vals.filterMap id
  if v.isEmpty then Option.none else some (v.sum / v.length)

/-- `_wavg(vals, weights)`: weighted average over the non-`None` inputs;
`None` if all inputs are absent or the retained weights sum to ≤ 0. -/
def pyWavg (vals : List (Option ℚ)) (weights : List ℚ) : Option ℚ :=
  let pts := (vals.zip weights).filterMap (fun p => p.1.map (fun x => (x, p.2)))
  if pts.isEmpty then Option.none
  else
    let sw := (pts.map Prod.snd).sum
    if sw ≤ 0 then Option.none
    else some ((pts.map (fun p => p.1 * p.2)).sum / sw)

/-- Coercion used where the source calls bare `float(...)` (no try/except):
failure is a raised `TypeError`/`ValueError`, not absence. -/
def pyFloatE (v : Val) : Except String ℚ :=
  match pyFloat? v with
  | some q => Except.ok q
  | Option.none => Except.error ("ValueError: could not convert value to float")

/-- Python `a or b` over optional dict-get results (missing key = `None`). -/
def orChain (h : Heap) (a b : Option Val) : Option Val :=
  match a with
  | some v => if isTruthy h v then some v else b
  | Option.none => b

/-- Python `x or {}`: a falsy or missing value becomes the empty dict. -/
def orEmpty (h : Heap) (v : Option Val) : Val :=
  match v with
  | some u => if isTruthy h u then u else .dict []
  | Option.none => .dict []

/-- A value appearing as an operand of `+` or `*` after an `(x or 0.0)`
guard: falsy values become 0, numbers and bools are numeric, anything
else raises `TypeError` (Python does not parse strings for arithmetic). -/
def orZeroNum (h : Heap) (v : Val) : Except String ℚ :=
  match (if isTruthy h v then v else Val.num 0) with
  | .num q => Except.ok q
  | .bool b => Except.ok (if b then 1 else 0)
  | _ => Except.error ("TypeError: unsupported operand type")

/-- `(x or 0.0)` where `x` came from a `.get(k, None)`-style read. -/
def orZeroNumO (h : Heap) (v : Option Val) : Except String ℚ :=
  match v with
  | some u => orZeroNum h u
  | Option.none => Except.ok 0

/-- Extraction of one bundle section:
`dict(spiky.get(name) or {})` - missing or falsy gives an empty dict, a
dict is (shallow-)copied, any other truthy value raises `TypeError`. -/
def getSection (h : Heap) (spiky : PyDict) (name : String) : Except String PyDict :=
  match getV spiky name with
  | Option.none => Except.ok []
  | some v =>
    if isTruthy h v then
      match asDict h v with
      | some d => Except.ok d
      | Option.none => Except.error ("TypeError: section value is not a mapping")
    else Except.ok []

/-- The positivity classification source:
`L.get("positivity_classes") or L.get("polarity") or
(L.get("positivity") if isinstance(L.get("positivity"), dict) else None)`. -/
def posClassesVal (h : Heap) (L : PyDict) : Option Val :=
  orChain h (getV L ("positivity_classes"))
    (orChain h (getV L ("polarity"))
      (match getV L ("positivity") with
       | some v => if (asDict h v).isSome then some v else Option.none
       | Option.none => Option.none))

/-- Positivity branch of `normalize_metrics`: a classification dict yields
`positivity = to100(positive + 0.5*neutral)` and an unclamped
`negativity_inv = 100 - (negative*100 if negative <= 1 else negative)`;
otherwise a scalar `positivity` field goes through `to100`. -/
def normPositivity (h : Heap) (L : PyDict) : Except String Out :=
  match (posClassesVal h L).bind (asDict h) with
  | some pc => do
    let p ← pyFloatE (getD pc ("positive") (.num 0))
    let neu ← pyFloatE (getD pc ("neutral") (.num 0))
    let neg ← pyFloatE (getD pc ("negative") (.num 0))
    Except.ok [(("positivity"), to100 (.num (p + (1/2) * neu))),
               (("negativity_inv"), some (100 - (if neg ≤ 1 then neg * 100 else neg)))]
  | Option.none =>
    if hasK L ("positivity") then
      Except.ok [(("positivity"), to100 (getD L ("positivity") .none))]
    else Except.ok []

/-- Objectivity: a classification dict uses its `objective` key, any other
non-`None` value is coerced directly. -/
def normObjectivity (h : Heap) (L : PyDict) : Out :=
  match getN L ("objectivity") with
  | some v =>
    match asDict h v with
    | some m => [(("objectivity"), to100 (getD m ("objective") (.num 0)))]
    | Option.none => [(("objectivity"), to100 v)]
  | Option.none => []

/-- Filler ratio, inverted. -/
def normFiller (L : PyDict) : Out :=
  if hasK L ("filler_ratio") then [(("filler_inv"), inv100 (getD L ("filler_ratio") .none))] else []

/-- Average sentence length, min-max normalized over [4, 25]. -/
def normSentenceLen (L : PyDict) : Out :=
  if hasK L ("avg_sentence_len") then
    [(("avg_sentence_len_norm"), minmax (getD L ("avg_sentence_len") .none) 4 25)]
  else []

/-- Patience in seconds, min-max normalized over [0, 180]. -/
def normPatience (L : PyDict) : Out :=
  if hasK L ("patience") then [(("patience_norm"), minmax (getD L ("patience") .none) 0 180)] else []

/-- Keyword strengths: mean of the coercible keyword weights, emitted only
when the keywords dict is nonempty and at least one weight coerces. -/
def normKeywords (h : Heap) (L : PyDict) : Out :=
  match (getN L ("keywords")).bind (asDict h) with
  | some kd =>
    if kd.isEmpty then []
    else
      let vals := kd.filterMap (fun p => to100 p.2)
      if vals.isEmpty then [] else [(("kw_strength"), some (vals.sum / vals.length))]
  | Option.none => []

/-- Curiosity score through `to100`. -/
def normCuriosity (L : PyDict) : Out :=
  if hasK L ("lang_emo_curiosity") then
    [(("lang_emo_curiosity"), to100 (getD L ("lang_emo_curiosity") .none))]
  else []

/-- First local rewrite of `L`: a string-valued `question` field becomes
1.0 when it starts with "question" (case-insensitive), else 0.0. -/
def questionStrFix (L : PyDict) : PyDict :=
  match getV L ("question") with
  | some (.str s) =>
    setV L ("question") (.num (if pyStarts (pyLower s) ("question") then 1 else 0))
  | _ => L

/-- Second local rewrite of `L`: derive `question_ratio` from `question`
when absent, coercing with `float` and falling back to truthiness. -/
def questionRatioFix (h : Heap) (L : PyDict) : PyDict :=
  if !hasK L ("question_ratio") && hasK L ("question") then
    let qv : ℚ :=
      match pyFloat? (getD L ("question") .none) with
      | some q => q
      | Option.none => if isTruthy h (getD L ("question") .none) then 1 else 0
    setV L ("question_ratio") (.num qv)
  else L

/-- Question ratio through `to100`. -/
def normQuestion (L : PyDict) : Out :=
  if hasK L ("question_ratio") then
    [(("question_ratio"), to100 (getD L ("question_ratio") .none))]
  else []

/-- Third local rewrite of `L`: a string-valued `offensiveness` field
becomes 1.0 when it starts with "offen", else 0.0. -/
def offensivenessStrFix (L : PyDict) : PyDict :=
  match getV L ("offensiveness") with
  | some (.str s) =>
    setV L ("offensiveness") (.num (if pyStarts (pyLower s) ("offen") then 1 else 0))
  | _ => L

/-- Offensiveness, inverted. -/
def normOffensiveness (L : PyDict) : Out :=
  if hasK L ("offensiveness") then
    [(("offensiveness_inv"), inv100 (getD L ("offensiveness") .none))]
  else []

/-- The language section of `normalize_metrics`; also returns the final
contents of the local copy `L` after its three in-place rewrites, so the
heap driver can commit them. -/
def normLanguage (h : Heap) (L : PyDict) : Except String (Out × PyDict) := do
  let a ← normPositivity h L
  let L1 := questionStrFix L
  let L2 := questionRatioFix h L1
  let L3 := offensivenessStrFix L2
  Except.ok (a ++ normObjectivity h L ++ normFiller L ++ normSentenceLen L ++
             normPatience L ++ normKeywords h L ++ normCuriosity L ++
             normQuestion L2 ++ normOffensiveness L3, L3)

/-- Local rewrite of `V`: a dict-valued `energy` field collapses to the
scalar `energetic if energetic > 0 else 1 - monotonic`, with bare `float`
coercions that raise on non-numeric class values. -/
def vocalEnergyFix (h : Heap) (V : PyDict) : Except String PyDict :=
  match (getV V ("energy")).bind (asDict h) with
  | some ed => do
    let ener ← pyFloatE (getD ed ("energetic") (.num 0))
    let mono ← pyFloatE (getD ed ("monotonic") (.num 0))
    Except.ok (setV V ("energy") (.num (if ener > 0 then ener else 1 - mono)))
  | Option.none => Except.ok V

/-- Vocal energy: `to100(e if e <= 1 else e/100)`. The comparison `e <= 1`
raises `TypeError` for a non-numeric value (Python 3 cannot order a str
or dict against an int). -/
def normEnergy (V : PyDict) : Except String Out :=
  if hasK V ("energy") then
    match getD V ("energy") .none with
    | .num q =>
      Except.ok [(("energy"), to100 (.num (if q ≤ 1 then q else q / 100)))]
    | .bool b => Except.ok [(("energy"), to100 (.bool b))]
    | _ => Except.error ("TypeError: comparison not supported between value and int")
  else Except.ok []

/-- Vocal emotions: `happy`/`neutral` buckets are emitted only when their
class is present; the negative bucket `sad + angry` is always emitted
(from zero defaults) when the emotions dict is nonempty. -/
def normVocalEmotions (h : Heap) (V : PyDict) : Except String Out :=
  match asDict h (orEmpty h (getV V ("emotions"))) with
  | some ve =>
    if ve.isEmpty then Except.ok []
    else do
      let s ← orZeroNum h (getD ve ("sad") (.num 0))
      let a ← orZeroNum h (getD ve ("angry") (.num 0))
      Except.ok ((match getN ve ("happy") with
                  | some v => [(("emo_pos"), to100 v)]
                  | Option.none => []) ++
                 (match getN ve ("neutral") with
                  | some v => [(("emo_neu"), to100 v)]
                  | Option.none => []) ++
                 [(("emo_neg_inv"), inv100 (.num (s + a)))])
  | Option.none => Except.ok []

/-- Facial attention: `attentive + 0.5*normal` when either is present,
`distracted` inverted separately. -/
def normAttention (h : Heap) (F : PyDict) : Except String Out :=
  match asDict h (orEmpty h (getV F ("attention"))) with
  | some att =>
    if att.isEmpty then Except.ok []
    else do
      let attPart ←
        (match getN att ("attentive"), getN att ("normal") with
         | Option.none, Option.none => Except.ok ([] : Out)
         | a, b => do
           let x ← orZeroNumO h a
           let y ← orZeroNumO h b
           Except.ok [(("attention_att"), to100 (.num (x + (1/2) * y)))])
      let distPart : Out :=
        match getN att ("distracted") with
        | some v => [(("attention_dist_inv"), inv100 v)]
        | Option.none => []
      Except.ok (attPart ++ distPart)
  | Option.none => Except.ok []

/-- Facial emotions: `happy` only when present; the `neutral + surprised`
bucket and the inverted `dissatisfied + annoyed` bucket are always
emitted (from zero defaults) when the emotions dict is nonempty. -/
def normFacialEmotions (h : Heap) (F : PyDict) : Except String Out :=
  match asDict h (orEmpty h (getV F ("emotions"))) with
  | some fe =>
    if fe.isEmpty then Except.ok []
    else do
      let n1 ← orZeroNum h (getD fe ("neutral") (.num 0))
      let n2 ← orZeroNum h (getD fe ("surprised") (.num 0))
      let d1 ← orZeroNum h (getD fe ("dissatisfied") (.num 0))
      let d2 ← orZeroNum h (getD fe ("annoyed") (.num 0))
      Except.ok ((match getN fe ("happy") with
                  | some v => [(("facial_emo_pos"), to100 v)]
                  | Option.none => []) ++
                 [(("facial_emo_neu"), to100 (.num (n1 + n2))),
                  (("facial_emo_dis_inv"), inv100 (.num (d1 + d2)))])
  | Option.none => Except.ok []

/-- Interaction section: talk/listen balance and words-per-minute. -/
def normInteraction (I : PyDict) : Out :=
  (if hasK I ("talk_listen") then
     [(("talk_balance"), talk_balance_score (getD I ("talk_listen") .none))]
   else []) ++
  (if hasK I ("speed_wpm") then
     [(("speed_norm"), minmax (getD I ("speed_wpm") .none) 90 180)]
   else [])

/-- High-level section: action items and follow-up questions. -/
def normHighlevel (H : PyDict) : Out :=
  (if hasK H ("action_items") then
     [(("action_items"), to100 (getD H ("action_items") .none))]
   else []) ++
  (if hasK H ("followup_questions") then
     [(("followup_questions"), to100 (getD H ("followup_questions") .none))]
   else [])

/-- `normalize_metrics(spiky)`: pure driver over inline `Val.dict` values
(empty heap). Produces the normalized sub-metric set in source insertion
order, or the first raised exception. -/
def normalize_metrics (spiky : PyDict) : Except String Out := do
  let L ← getSection emptyHeap spiky ("language")
  let V ← getSection emptyHeap spiky ("vocal")
  let F ← getSection emptyHeap spiky ("facial")
  let I ← getSection emptyHeap spiky ("interaction")
  let H ← getSection emptyHeap spiky ("highlevel")
  let lang ← normLanguage emptyHeap L
  let V1 ← vocalEnergyFix emptyHeap V
  let eo ← normEnergy V1
  let vo ← normVocalEmotions emptyHeap V1
  let ao ← normAttention emptyHeap F
  let fo ← normFacialEmotions emptyHeap F
  Except.ok (lang.1 ++ eo ++ vo ++ ao ++ fo ++ normInteraction I ++ normHighlevel H)

/-- `norm.get(k)` inside `build_curated_metrics`: the normalized dict can
hold stored `None` values, which behave like absence. -/
def ngetN (norm : Out) (k : String) : Option ℚ :=
  ((norm.find? (fun p => p.1 == k)).map Prod.snd).bind id

/-- `build_curated_metrics(norm)`: the ten fixed curated metrics, built by
plain/weighted averages of sub-metrics, with fully-absent entries dropped
by the final comprehension. -/
def build_curated_metrics (norm : Out) : List (String × ℚ) :=
  ([(("objectivity"), ngetN norm ("objectivity")),
    (("clarity_conciseness"), pyAvg [ngetN norm ("filler_inv"), ngetN norm ("avg_sentence_len_norm")]),
    (("energy"), ngetN norm ("energy")),
    (("decision_orientation"), ngetN norm ("action_items")),
    (("followup_questions"), ngetN norm ("followup_questions")),
    (("novelty_ideation"), pyAvg [ngetN norm ("kw_strength"), ngetN norm ("lang_emo_curiosity")]),
    (("attention_listening"), pyWavg [ngetN norm ("attention_att"), ngetN norm ("attention_dist_inv")] [7/10, 3/10]),
    (("talk_balance"), ngetN norm ("talk_balance")),
    (("patience"), ngetN norm ("patience_norm")),
    (("positivity_tone"), pyAvg [ngetN norm ("positivity"), ngetN norm ("emo_pos"), ngetN norm ("emo_neg_inv")])]
    : List (String × Option ℚ)).filterMap (fun p => p.2.map (fun v => (p.1, v)))

/-- The weight-table configuration: curated-metric name to a row of
weights keyed by factor name (`weights.json`, injected as a parameter). -/
abbrev Weights := List (String × List (String × ℚ))

/-- `bases[f] += x` for a factor accumulator. -/
def addAt (bs : List (String × ℚ)) (f : String) (x : ℚ) : List (String × ℚ) :=
  bs.map (fun p => if p.1 == f then (p.1, p.2 + x) else p)

/-- Key presence in a rational-valued assoc list. -/
def hasKQ (bs : List (String × ℚ)) (f : String) : Bool :=
  bs.any (fun p => p.1 == f)

/-- `base_factors(curated)`: project curated metrics onto the four factors
through the weight table; each present row is normalized by its own sum
(`sum(row.values()) or 1.0`), and the four totals are clamped at the end.
A weight row keyed by an unknown factor raises `KeyError` on `bases[f]`. -/
def base_factors (W : Weights) (curated : List (String × ℚ)) : Except String (List (String × ℚ)) := do
  let init : List (String × ℚ) :=
    [(("Precision"), 0), (("Resolve"), 0), (("Innovation"), 0), (("Harmony"), 0)]
  let bases ← curated.foldlM (fun bases ms =>
    match W.find? (fun r => r.1 == ms.1) with
    | Option.none => Except.ok bases
    | some row =>
      let total : ℚ := if (row.2.map Prod.snd).sum = 0 then 1 else (row.2.map Prod.snd).sum
      row.2.foldlM (fun bs fw =>
        if hasKQ bs fw.1 then Except.ok (addAt bs fw.1 (ms.2 * (fw.2 / total)))
        else Except.error ("KeyError: unknown factor in weight row")) bases) init
  Except.ok (bases.map (fun p => (p.1, clampQ p.2 0 100)))

/-- Modelled from the spec: the multiplier-table configuration file
(config/multipliers.json) is not among the sources; section 3 of the spec
describes it as a mapping from the four rank labels to positive
multiplier constants, modelled as a total four-field record. -/
structure Multipliers where
  primary : ℚ
  secondary : ℚ
  tertiary : ℚ
  quaternary : ℚ
deriving DecidableEq, Repr

/-- `multipliers.get(label, 1.0)`: rank-label lookup with the source's
default of 1.0 for an unknown label. -/
def mulGet (m : Multipliers) (label : String) : ℚ :=
  if label = "primary" then m.primary
  else if label = "secondary" then m.secondary
  else if label = "tertiary" then m.tertiary
  else if label = "quaternary" then m.quaternary
  else 1

/-- String-valued assoc-list assignment (for the rank map `pmap`). -/
def setS (d : List (String × String)) (k v : String) : List (String × String) :=
  if d.any (fun p => p.1 == k) then d.map (fun p => if p.1 == k then (k, v) else p)
  else d ++ [(k, v)]

/-- String-valued assoc-list lookup. -/
def lookupS (d : List (String × String)) (k : String) : Option String :=
  (d.find? (fun p => p.1 == k)).map Prod.snd

/-- `order[i]`: list indexing that raises `IndexError` out of range. -/
def idxE (l : List String) (i : ℕ) : Except String String :=
  match l.get? i with
  | some x => Except.ok x
  | Option.none => Except.error ("IndexError: list index out of range")

/-- `apply_pattern(bases, order)`: build the rank map from the order's
first four entries (later duplicates overwrite earlier ranks), then scale
every base score by the multiplier of its mapped rank - defaulting to
`"quaternary"` for a factor not named in the order - and clamp. -/
def apply_pattern (mult : Multipliers) (bases : List (String × ℚ)) (order : List String) :
    Except String (List (String × ℚ)) := do
  let o0 ← idxE order 0
  let o1 ← idxE order 1
  let o2 ← idxE order 2
  let o3 ← idxE order 3
  let pmap := setS (setS (setS (setS [] o0 ("primary")) o1 ("secondary")) o2 ("tertiary")) o3 ("quaternary")
  Except.ok (bases.map (fun p =>
    (p.1, clampQ (p.2 * mulGet mult ((lookupS pmap p.1).getD ("quaternary"))) 0 100)))

/-- `scores[k]`: dict indexing that raises `KeyError` when absent. -/
def lookupQE (d : List (String × ℚ)) (k : String) : Except String ℚ :=
  match d.find? (fun p => p.1 == k) with
  | some p => Except.ok p.2
  | Option.none => Except.error ("KeyError: factor name not in scores")

/-- Python `x or 1.0` on a float (the zero-norm divisor floor). -/
def orOne (x : ℚ) : ℚ := if x = 0 then 1 else x

/-- `cosine_alignment(scores, order)`: normalize the multiplier target
vector, read the subject vector from `scores` in pattern order, and
return `clamp(100 * dot / subject_norm, 0, 100)`; zero norms are floored
to 1. `sq` abstracts `math.sqrt`. -/
def cosine_alignment (sq : ℚ → ℚ) (mult : Multipliers)
    (scores : List (String × ℚ)) (order : List String) : Except String ℚ := do
  let tvec := [mult.primary, mult.secondary, mult.tertiary, mult.quaternary]
  let tnorm := orOne (sq (tvec.map (fun x => x * x)).sum)
  let tv := tvec.map (· / tnorm)
  let o0 ← idxE order 0
  let o1 ← idxE order 1
  let o2 ← idxE order 2
  let o3 ← idxE order 3
  let s0 ← lookupQE scores o0
  let s1 ← lookupQE scores o1
  let s2 ← lookupQE scores o2
  let s3 ← lookupQE scores o3
  let svec := [s0, s1, s2, s3]
  let snorm := orOne (sq (svec.map (fun x => x * x)).sum)
  let dot := ((svec.zip tv).map (fun p => p.1 * p.2)).sum
  let sim := dot / (snorm * 1)
  Except.ok (clampQ (sim * 100) 0 100)

/-- `round(q, 2)` on the final display values (Python rounds half to
even; the difference from half-up arises only at exact half-cent ties,
which no claim touches). -/
def round2 (q : ℚ) : ℚ := ((round (q * 100) : ℤ) : ℚ) / 100

/-- The per-pattern scoring result: lower-cased rounded factor scores,
rounded alignment percentage, and the curated/raw intermediate metrics. -/
structure ScoreResult where
  factors : List (String × ℚ)
  alignment_pct : ℚ
  curated : List (String × ℚ)
  raw : Out
deriving DecidableEq

/-- `score_one(spiky, order)`: the full pipeline for one pattern. -/
def score_one (sq : ℚ → ℚ) (W : Weights) (mult : Multipliers)
    (spiky : PyDict) (order : List String) : Except String ScoreResult := do
  let s_norm ← normalize_metrics spiky
  let s_cur := build_curated_metrics s_norm
  let bases ← base_factors W s_cur
  let scores ← apply_pattern mult bases order
  let align ← cosine_alignment sq mult scores order
  Except.ok ⟨scores.map (fun p => (pyLower p.1, round2 p.2)), round2 align, s_cur, s_norm⟩

/-- One pattern-catalog entry: display name and factor ordering. -/
structure PatInfo where
  name : String
  order : List String
deriving DecidableEq, Repr

/-- The pattern field of a response entry (`id` is `None` on the custom
single-pattern path). -/
structure PatternRef where
  id : Option ℤ
  name : String
  order : List String
deriving DecidableEq, Repr

/-- One entry of the `all` mapping: a scoring result tagged with its
pattern. -/
structure Entry where
  pattern : PatternRef
  factors : List (String × ℚ)
  alignment_pct : ℚ
  curated : List (String × ℚ)
  raw : Out
deriving DecidableEq

/-- The response shape `{"best": ..., "all": ...}`. -/
structure Response where
  best : Option Entry
  all : List (String × Entry)
deriving DecidableEq

/-- `all_scores[pid] = entry` (dict assignment). -/
def setE (d : List (String × Entry)) (k : String) (v : Entry) : List (String × Entry) :=
  if d.any (fun p => p.1 == k) then d.map (fun p => if p.1 == k then (k, v) else p)
  else d ++ [(k, v)]

/-- `int(pid)`: raises `ValueError` for a non-numeric pattern id key
(plain optionally-signed digit strings suffice for catalog keys). -/
def strToIntE (s : String) : Except String ℤ :=
  match s.data with
  | '-' :: ds =>
    if ds ≠ [] ∧ ds.all (fun c => c.isDigit) then Except.ok (-(digitsToNat ds : ℤ))
    else Except.error ("ValueError: invalid literal for int")
  | ds =>
    if ds ≠ [] ∧ ds.all (fun c => c.isDigit) then Except.ok ((digitsToNat ds : ℤ))
    else Except.error ("ValueError: invalid literal for int")

/-- Loop body of `score_all_patterns`: score each catalog entry, record it
in `all_scores`, and promote it to `best` only on a strictly greater
alignment percentage. -/
def scoreAllGo (sq : ℚ → ℚ) (W : Weights) (mult : Multipliers) (spiky : PyDict) :
    List (String × PatInfo) → Option Entry → List (String × Entry) → Except String Response
  | [], best, acc => Except.ok ⟨best, acc⟩
  | (pid, pinfo) :: rest, best, acc => do
    let res ← score_one sq W mult spiky pinfo.order
    let n ← strToIntE pid
    let entry : Entry := ⟨⟨some n, pinfo.name, pinfo.order⟩,
                          res.factors, res.alignment_pct, res.curated, res.raw⟩
    let acc1 := setE acc pid entry
    let best1 := match best with
      | Option.none => some entry
      | some b => if res.alignment_pct > b.alignment_pct then some entry else some b
    scoreAllGo sq W mult spiky rest best1 acc1

/-- `score_all_patterns(spiky)`: best-of-catalog scoring over the whole
pattern catalog. -/
def score_all_patterns (sq : ℚ → ℚ) (W : Weights) (mult : Multipliers)
    (patterns : List (String × PatInfo)) (spiky : PyDict) : Except String Response :=
  scoreAllGo sq W mult spiky patterns Option.none []

/-- The request body of the `/score` endpoint. -/
structure ScoreRequest where
  spiky : PyDict
  pattern_id : Option ℤ
  pattern_name : Option String
  bcat_pattern : Option (List String)

/-- Truthiness of the optional `pattern_id` (0 is falsy). -/
def truthyId : Option ℤ → Bool
  | some n => n != 0
  | Option.none => false

/-- Truthiness of the optional `pattern_name` ("" is falsy). -/
def truthyName : Option String → Bool
  | some s => s != ""
  | Option.none => false

/-- Truthiness of the optional `bcat_pattern` ([] is falsy). -/
def truthyPat : Option (List String) → Bool
  | some l => !l.isEmpty
  | Option.none => false

/-- Pattern-selector resolution inside the `/score` handler: a literal
ordering wins; then a pattern id that is a catalog key; then a display
name match (raising when none matches); otherwise the hard-coded fallback
to catalog entry "15" (raising `KeyError` only if that key is absent). -/
def resolveOrder (patterns : List (String × PatInfo)) (req : ScoreRequest) :
    Except String (List String) :=
  if truthyPat req.bcat_pattern then Except.ok (req.bcat_pattern.getD [])
  else if truthyId req.pattern_id &&
          (patterns.any (fun p => p.1 == toString (req.pattern_id.getD 0))) then
    match patterns.find? (fun p => p.1 == toString (req.pattern_id.getD 0)) with
    | some p => Except.ok p.2.order
    | Option.none => Except.error ("unreachable: key test succeeded")
  else if truthyName req.pattern_name then
    match patterns.find? (fun p => pyLower p.2.name == pyLower (req.pattern_name.getD "")) with
    | some p => Except.ok p.2.order
    | Option.none => Except.error ("pattern_name not found")
  else
    match patterns.find? (fun p => p.1 == "15") with
    | some p => Except.ok p.2.order
    | Option.none => Except.error ("KeyError: 15")

/-- The `/score` endpoint: a truthy selector routes to single-pattern
scoring with a `"custom"`-tagged best and empty `all`; otherwise
best-of-catalog scoring. Any raised exception becomes the client-visible
HTTP 400 detail string. -/
def api_score (sq : ℚ → ℚ) (W : Weights) (mult : Multipliers)
    (patterns : List (String × PatInfo)) (req : ScoreRequest) : Except String Response :=
  if truthyId req.pattern_id || truthyName req.pattern_name || truthyPat req.bcat_pattern then do
    let order ← resolveOrder patterns req
    let res ← score_one sq W mult req.spiky order
    Except.ok ⟨some ⟨⟨Option.none, ("custom"), order⟩,
                     res.factors, res.alignment_pct, res.curated, res.raw⟩, []⟩
  else score_all_patterns sq W mult patterns req.spiky

/-- Heap driver of `normalize_metrics`, for the no-mutation claim: the
caller's bundle is the dict object at `bref`; `dict(...)` allocates the
five fresh section copies, and the source's in-place writes to the local
copies `L` (question/offensiveness rewrites) and `V` (energy rewrite) are
committed to those fresh objects. Returns the final heap alongside the
normalized sub-metric set. -/
def normalize_heap (h0 : Heap) (bref : ℕ) : Except String (Out × Heap) := do
  let spiky ← match hget h0 bref with
    | some d => Except.ok d
    | Option.none => Except.error ("invalid bundle reference")
  let lC ← getSection h0 spiky ("language")
  let vC ← getSection h0 spiky ("vocal")
  let fC ← getSection h0 spiky ("facial")
  let iC ← getSection h0 spiky ("interaction")
  let hC ← getSection h0 spiky ("highlevel")
  let la := halloc h0 lC
  let va := halloc la.2 vC
  let fa := halloc va.2 fC
  let ia := halloc fa.2 iC
  let ha := halloc ia.2 hC
  let lang ← normLanguage ha.2 lC
  let h6 := hset ha.2 la.1 lang.2
  let vC1 ← vocalEnergyFix h6 vC
  let h7 := hset h6 va.1 vC1
  let eo ← normEnergy vC1
  let vo ← normVocalEmotions h7 vC1
  let ao ← normAttention h7 fC
  let fo ← normFacialEmotions h7 fC
  Except.ok (lang.1 ++ eo ++ vo ++ ao ++ fo ++ normInteraction iC ++ normHighlevel hC, h7)

/-- Heap driver of `score_one`: only metric normalization ever touches the
caller's bundle; the later stages consume derived pure data. -/
def score_one_heap (sq : ℚ → ℚ) (W : Weights) (mult : Multipliers)
    (h0 : Heap) (bref : ℕ) (order : List String) : Except String (ScoreResult × Heap) := do
  let nh ← normalize_heap h0 bref
  let s_cur := build_curated_metrics nh.1
  let bases ← base_factors W s_cur
  let scores ← apply_pattern mult bases order
  let align ← cosine_alignment sq mult scores order
  Except.ok (⟨scores.map (fun p => (pyLower p.1, round2 p.2)), round2 align, s_cur, nh.1⟩, nh.2)

/-- Modelled from the spec: the pattern-catalog configuration file
(config/patterns.json) is not among the sources; per sections 4.7 and 6
it enumerates all 24 permutations of the four factors, each entry keyed
by its numeric id and carrying a descriptive name and the ordering. Ids
run "1".."24" in lexicographic order of the factor listing. -/
def patterns24 : List (String × PatInfo) :=
  [(("1"),  ⟨("Pattern 1"),  [("Precision"), ("Resolve"), ("Innovation"), ("Harmony")]⟩),
   (("2"),  ⟨("Pattern 2"),  [("Precision"), ("Resolve"), ("Harmony"), ("Innovation")]⟩),
   (("3"),  ⟨("Pattern 3"),  [("Precision"), ("Innovation"), ("Resolve"), ("Harmony")]⟩),
   (("4"),  ⟨("Pattern 4"),  [("Precision"), ("Innovation"), ("Harmony"), ("Resolve")]⟩),
   (("5"),  ⟨("Pattern 5"),  [("Precision"), ("Harmony"), ("Resolve"), ("Innovation")]⟩),
   (("6"),  ⟨("Pattern 6"),  [("Precision"), ("Harmony"), ("Innovation"), ("Resolve")]⟩),
   (("7"),  ⟨("Pattern 7"),  [("Resolve"), ("Precision"), ("Innovation"), ("Harmony")]⟩),
   (("8"),  ⟨("Pattern 8"),  [("Resolve"), ("Precision"), ("Harmony"), ("Innovation")]⟩),
   (("9"),  ⟨("Pattern 9"),  [("Resolve"), ("Innovation"), ("Precision"), ("Harmony")]⟩),
   (("10"), ⟨("Pattern 10"), [("Resolve"), ("Innovation"), ("Harmony"), ("Precision")]⟩),
   (("11"), ⟨("Pattern 11"), [("Resolve"), ("Harmony"), ("Precision"), ("Innovation")]⟩),
   (("12"), ⟨("Pattern 12"), [("Resolve"), ("Harmony"), ("Innovation"), ("Precision")]⟩),
   (("13"), ⟨("Pattern 13"), [("Innovation"), ("Precision"), ("Resolve"), ("Harmony")]⟩),
   (("14"), ⟨("Pattern 14"), [("Innovation"), ("Precision"), ("Harmony"), ("Resolve")]⟩),
   (("15"), ⟨("Pattern 15"), [("Innovation"), ("Resolve"), ("Precision"), ("Harmony")]⟩),
   (("16"), ⟨("Pattern 16"), [("Innovation"), ("Resolve"), ("Harmony"), ("Precision")]⟩),
   (("17"), ⟨("Pattern 17"), [("Innovation"), ("Harmony"), ("Precision"), ("Resolve")]⟩),
   (("18"), ⟨("Pattern 18"), [("Innovation"), ("Harmony"), ("Resolve"), ("Precision")]⟩),
   (("19"), ⟨("Pattern 19"), [("Harmony"), ("Precision"), ("Resolve"), ("Innovation")]⟩),
   (("20"), ⟨("Pattern 20"), [("Harmony"), ("Precision"), ("Innovation"), ("Resolve")]⟩),
   (("21"), ⟨("Pattern 21"), [("Harmony"), ("Resolve"), ("Precision"), ("Innovation")]⟩),
   (("22"), ⟨("Pattern 22"), [("Harmony"), ("Resolve"), ("Innovation"), ("Precision")]⟩),
   (("23"), ⟨("Pattern 23"), [("Harmony"), ("Innovation"), ("Precision"), ("Resolve")]⟩),
   (("24"), ⟨("Pattern 24"), [("Harmony"), ("Innovation"), ("Resolve"), ("Precision")]⟩)]

/-- Coercibility by `float(...)`. -/
def coercibleB (v : Val) : Bool := (pyFloat? v).isSome

/-- Usability of a value as an `(x or 0.0)` arithmetic operand. -/
def numLikeB (v : Val) : Bool :=
  match (if isTruthy emptyHeap v then v else Val.num 0) with
  | .num _ => true
  | .bool _ => true
  | _ => false

/-- A section value that `dict(x or {})` accepts: absent, falsy, or a
mapping. -/
def sectionOk (spiky : PyDict) (name : String) : Bool :=
  match getV spiky name with
  | Option.none => true
  | some v => !isTruthy emptyHeap v || (asDict emptyHeap v).isSome

/-- The positivity-class values reached by bare `float(...)` coerce. -/
def posOk (L : PyDict) : Bool :=
  match (posClassesVal emptyHeap L).bind (asDict emptyHeap) with
  | some pc =>
    coercibleB (getD pc ("positive") (.num 0)) &&
    coercibleB (getD pc ("neutral") (.num 0)) &&
    coercibleB (getD pc ("negative") (.num 0))
  | Option.none => true

/-- The vocal energy classification values reached by bare `float(...)`
coerce. -/
def energyFixOk (V : PyDict) : Bool :=
  match (getV V ("energy")).bind (asDict emptyHeap) with
  | some ed =>
    coercibleB (getD ed ("energetic") (.num 0)) && coercibleB (getD ed ("monotonic") (.num 0))
  | Option.none => true

/-- A scalar vocal energy value survives the `<= 1` comparison (is a
number or bool); a dict-valued energy is rewritten to a number first. -/
def energyOk (V : PyDict) : Bool :=
  match getV V ("energy") with
  | Option.none => true
  | some v =>
    match asDict emptyHeap v with
    | some _ => true
    | Option.none =>
      match v with
      | .num _ => true
      | .bool _ => true
      | _ => false

/-- The vocal negative-emotion operands are usable in arithmetic. -/
def vocalEmosOk (V : PyDict) : Bool :=
  match asDict emptyHeap (orEmpty emptyHeap (getV V ("emotions"))) with
  | some ve =>
    ve.isEmpty || (numLikeB (getD ve ("sad") (.num 0)) && numLikeB (getD ve ("angry") (.num 0)))
  | Option.none => true

/-- The facial attention operands are usable in arithmetic when the
attentive/normal branch runs. -/
def attentionOk (F : PyDict) : Bool :=
  match asDict emptyHeap (orEmpty emptyHeap (getV F ("attention"))) with
  | some att =>
    att.isEmpty ||
    (match getN att ("attentive"), getN att ("normal") with
     | Option.none, Option.none => true
     | a, b =>
       (match a with | some v => numLikeB v | Option.none => true) &&
       (match b with | some v => numLikeB v | Option.none => true))
  | Option.none => true

/-- The facial emotion bucket operands are usable in arithmetic. -/
def facialEmosOk (F : PyDict) : Bool :=
  match asDict emptyHeap (orEmpty emptyHeap (getV F ("emotions"))) with
  | some fe =>
    fe.isEmpty ||
    (numLikeB (getD fe ("neutral") (.num 0)) && numLikeB (getD fe ("surprised") (.num 0)) &&
     numLikeB (getD fe ("dissatisfied") (.num 0)) && numLikeB (getD fe ("annoyed") (.num 0)))
  | Option.none => true

/-- The exact no-raise precondition of `normalize_metrics`: each section
is a mapping (or absent/falsy), and every value reached by a bare
`float(...)`, an order comparison, or `+`/`*` arithmetic is numeric.
All other field values may be arbitrary. -/
def wellTyped (spiky : PyDict) : Bool :=
  sectionOk spiky ("language") && sectionOk spiky ("vocal") && sectionOk spiky ("facial") &&
  sectionOk spiky ("interaction") && sectionOk spiky ("highlevel") &&
  (match getSection emptyHeap spiky ("language") with
   | Except.ok L => posOk L
   | Except.error _ => true) &&
  (match getSection emptyHeap spiky ("vocal") with
   | Except.ok V => energyFixOk V && energyOk V && vocalEmosOk V
   | Except.error _ => true) &&
  (match getSection emptyHeap spiky ("facial") with
   | Except.ok F => attentionOk F && facialEmosOk F
   | Except.error _ => true)

/-- The four factor names, in the order the engine initializes them. -/
def factorNames : List String :=
  [("Precision"), ("Resolve"), ("Innovation"), ("Harmony")]

/-- The zero factor-score vector produced for an empty bundle. -/
def zeroBases : List (String × ℚ) :=
  [(("Precision"), 0), (("Resolve"), 0), (("Innovation"), 0), (("Harmony"), 0)]

/-- Invariant of the best-of-catalog fold: when a best entry exists, it
bounds every recorded alignment, and the recorded list splits at the
first entry equal to it, with all earlier alignments strictly below. -/
def bestInv (best : Option Entry) (acc : List (String × Entry)) : Prop :=
  match best with
  | Option.none => acc = []
  | some b =>
    (∀ p ∈ acc, p.2.alignment_pct ≤ b.alignment_pct) ∧
    ∃ pre k post, acc = pre ++ (k, b) :: post ∧
      ∀ p ∈ pre, p.2.alignment_pct < b.alignment_pct

theorem exceptBind_ok {α β : Type} {e : Except String α} {f : α → Except String β} {b : β} :
    (e >>= f) = Except.ok b ↔ ∃ a, e = Except.ok a ∧ f a = Except.ok b := by
  cases e <;> simp [Bind.bind, Except.bind]

theorem clampQ_range (x : ℚ) : 0 ≤ clampQ x 0 100 ∧ clampQ x 0 100 ≤ 100 := by
  constructor
  · exact le_max_left 0 _
  · exact max_le (by norm_num) (min_le_left _ _)

theorem to100q_range (v : ℚ) : 0 ≤ to100q v ∧ to100q v ≤ 100 := clampQ_range _

theorem inv100q_range (v : ℚ) : 0 ≤ 100 - to100q v ∧ 100 - to100q v ≤ 100 := by
  have h := to100q_range v
  constructor <;> linarith [h.1, h.2]

theorem to100_mem {v : Val} {q : ℚ} (h : to100 v = some q) : 0 ≤ q ∧ q ≤ 100 := by
  rcases hf : pyFloat? v with _ | x <;> simp [to100, hf] at h
  exact h ▸ to100q_range x

theorem inv100_mem {v : Val} {q : ℚ} (h : inv100 v = some q) : 0 ≤ q ∧ q ≤ 100 := by
  rcases ht : to100 v with _ | x <;> simp [inv100, ht] at h
  have := to100_mem ht
  constructor <;> [skip; skip] <;> rw [← h] <;> linarith [this.1, this.2]

theorem minmax_mem {v : Val} {lo hi q : ℚ} (h : minmax v lo hi = some q) :
    0 ≤ q ∧ q ≤ 100 := by
  rcases hf : pyFloat? v with _ | x <;> simp [minmax, hf] at h
  rw [← h]
  unfold minmaxq
  split
  · norm_num
  · exact clampQ_range _

theorem talk_balance_mem {v : Val} {q : ℚ} (h : talk_balance_score v = some q) :
    0 ≤ q ∧ q ≤ 100 := by
  rcases hf : pyFloat? v with _ | x <;> simp [talk_balance_score, hf] at h
  exact h ▸ clampQ_range _

theorem avg100_range (l : List ℚ) (hl : ∀ x ∈ l, 0 ≤ x ∧ x ≤ 100) (hne : l ≠ []) :
    0 ≤ l.sum / l.length ∧ l.sum / l.length ≤ 100 := by
  have hpos : (0 : ℚ) < l.length := by
    have : l.length ≠ 0 := fun h => hne (List.length_eq_zero.mp h)
    exact_mod_cast Nat.pos_of_ne_zero this
  constructor
  · apply div_nonneg _ (le_of_lt hpos)
    exact List.sum_nonneg (fun x hx => (hl x hx).1)
  · rw [div_le_iff₀ hpos]
    calc l.sum ≤ l.length • (100 : ℚ) := List.sum_le_card_nsmul l 100 (fun x hx => (hl x hx).2)
    _ = 100 * l.length := by rw [nsmul_eq_mul]; ring

theorem list_len_four {α : Type} {l : List α} (h : l.length = 4) :
    ∃ a b c d, l = [a, b, c, d] := by
  match l, h with
  | [a, b, c, d], _ => exact ⟨a, b, c, d, rfl⟩

theorem normalize_metrics_empty : normalize_metrics [] = Except.ok [] := rfl

theorem build_curated_metrics_empty : build_curated_metrics [] = [] := rfl

theorem base_factors_nil (W : Weights) : base_factors W [] = Except.ok zeroBases := by
  have h : base_factors W [] = Except.ok
      [(("Precision"), clampQ 0 0 100), (("Resolve"), clampQ 0 0 100),
       (("Innovation"), clampQ 0 0 100), (("Harmony"), clampQ 0 0 100)] := rfl
  rw [h]
  norm_num [clampQ, min_def, max_def, zeroBases]

theorem apply_pattern_zeroBases (mult : Multipliers) (a b c d : String) :
    apply_pattern mult zeroBases [a, b, c, d] = Except.ok zeroBases := by
  have h : apply_pattern mult zeroBases [a, b, c, d] = Except.ok
      ((zeroBases).map (fun p =>
        (p.1, clampQ (p.2 * mulGet mult ((lookupS
          (setS (setS (setS (setS [] a ("primary")) b ("secondary")) c ("tertiary")) d ("quaternary"))
          p.1).getD ("quaternary"))) 0 100))) := rfl
  rw [h]
  norm_num [zeroBases, clampQ, min_def, max_def]

theorem lookupQE_zeroBases {x : String} (hx : x ∈ factorNames) :
    lookupQE zeroBases x = Except.ok 0 := by
  simp only [factorNames, List.mem_cons, List.not_mem_nil, or_false] at hx
  rcases hx with rfl | rfl | rfl | rfl <;> rfl

theorem cosine_alignment_zeroBases (sq : ℚ → ℚ) (mult : Multipliers) {a b c d : String}
    (ha : a ∈ factorNames) (hb : b ∈ factorNames) (hc : c ∈ factorNames)
    (hd : d ∈ factorNames) :
    cosine_alignment sq mult zeroBases [a, b, c, d] = Except.ok 0 := by
  have h : cosine_alignment sq mult zeroBases [a, b, c, d] =
      (do
        let s0 ← lookupQE zeroBases a
        let s1 ← lookupQE zeroBases b
        let s2 ← lookupQE zeroBases c
        let s3 ← lookupQE zeroBases d
        let tnorm := orOne (sq ([mult.primary, mult.secondary, mult.tertiary, mult.quaternary].map (fun x => x * x)).sum)
        let tv := [mult.primary, mult.secondary, mult.tertiary, mult.quaternary].map (· / tnorm)
        let svec := [s0, s1, s2, s3]
        let snorm := orOne (sq ((svec.map (fun x => x * x)).sum))
        let dot := ((svec.zip tv).map (fun p => p.1 * p.2)).sum
        Except.ok (clampQ (dot / (snorm * 1) * 100) 0 100)) := rfl
  rw [h, lookupQE_zeroBases ha, lookupQE_zeroBases hb, lookupQE_zeroBases hc, lookupQE_zeroBases hd]
  show Except.ok (clampQ _ 0 100) = _
  norm_num [clampQ, min_def, max_def]

theorem bind_ok_left {α β : Type} (a : α) (f : α → Except String β) :
    (Except.ok a >>= f) = f a := rfl

theorem score_one_empty (sq : ℚ → ℚ) (W : Weights) (mult : Multipliers) (order : List String)
    (h : order.Perm factorNames) :
    score_one sq W mult [] order =
      Except.ok ⟨[(("precision"), 0), (("resolve"), 0), (("innovation"), 0), (("harmony"), 0)],
                 0, [], []⟩ := by
  have hlen : order.length = 4 := by
    have := h.length_eq
    simpa [factorNames] using this
  obtain ⟨a, b, c, d, rfl⟩ := list_len_four hlen
  have ha : a ∈ factorNames := h.mem_iff.mp (by simp)
  have hb : b ∈ factorNames := h.mem_iff.mp (by simp)
  have hc : c ∈ factorNames := h.mem_iff.mp (by simp)
  have hd : d ∈ factorNames := h.mem_iff.mp (by simp)
  have h1 : score_one sq W mult [] [a, b, c, d] =
      (do
        let bases ← base_factors W []
        let scores ← apply_pattern mult bases [a, b, c, d]
        let align ← cosine_alignment sq mult scores [a, b, c, d]
        Except.ok (⟨scores.map (fun p => (pyLower p.1, round2 p.2)), round2 align, [], []⟩ :
          ScoreResult)) := rfl
  rw [h1, base_factors_nil, bind_ok_left, apply_pattern_zeroBases, bind_ok_left,
     cosine_alignment_zeroBases sq mult ha hb hc hd, bind_ok_left]
  have hP : pyLower ("Precision") = ("precision") := by decide
  have hR : pyLower ("Resolve") = ("resolve") := by decide
  have hI : pyLower ("Innovation") = ("innovation") := by decide
  have hH : pyLower ("Harmony") = ("harmony") := by decide
  norm_num [zeroBases, round2, hP, hR, hI, hH]

/-- C7: for the empty signal bundle and every valid 4-permutation pattern,
the pipeline yields an empty normalized map, an empty curated map, all
four base factor scores 0, and a non-crashing score with alignment 0
(the zero-norm subject vector's divisor is floored, and the zero dot
product makes the similarity 0). -/
theorem C7_empty_bundle (sq : ℚ → ℚ) (W : Weights) (mult : Multipliers) (order : List String)
    (h : order.Perm factorNames) :
    normalize_metrics [] = Except.ok [] ∧
    build_curated_metrics [] = [] ∧
    base_factors W [] = Except.ok zeroBases ∧
    score_one sq W mult [] order =
      Except.ok ⟨[(("precision"), 0), (("resolve"), 0), (("innovation"), 0), (("harmony"), 0)],
                 0, [], []⟩ :=
  ⟨normalize_metrics_empty, build_curated_metrics_empty, base_factors_nil W,
   score_one_empty sq W mult order h⟩

/-- Witness for C7 at a concrete permutation and concrete configuration. -/
theorem C7_empty_bundle_witness :
    normalize_metrics [] = Except.ok [] ∧
    build_curated_metrics [] = [] ∧
    base_factors [] [] = Except.ok zeroBases ∧
    score_one (fun _ => 0) [] ⟨3/2, 6/5, 1, 1/2⟩ []
        [("Precision"), ("Resolve"), ("Innovation"), ("Harmony")] =
      Except.ok ⟨[(("precision"), 0), (("resolve"), 0), (("innovation"), 0), (("harmony"), 0)],
                 0, [], []⟩ :=
  C7_empty_bundle (fun _ => 0) [] ⟨3/2, 6/5, 1, 1/2⟩ _ (List.Perm.refl factorNames)

/-- C8: `inv100` is definitionally `100 - to100` with absence propagated:
for coercible inputs the two results exist and sum to exactly 100, and
both are absent exactly when the input is not coercible. -/
theorem C8_inv100_plus_to100 (v : Val) :
    inv100 v = (to100 v).map (fun x => 100 - x) ∧
    ((pyFloat? v).isSome → ∃ a b, to100 v = some a ∧ inv100 v = some b ∧ a + b = 100) ∧
    (pyFloat? v = Option.none → to100 v = Option.none ∧ inv100 v = Option.none) := by
  refine ⟨rfl, ?_, ?_⟩
  · intro hs
    rcases hf : pyFloat? v with _ | x
    · rw [hf] at hs; simp at hs
    · exact ⟨to100q x, 100 - to100q x, by simp [to100, hf], by simp [inv100, to100, hf], by ring⟩
  · intro hf
    simp [to100, inv100, hf]

/-- Witness for C8 at the coercible input 0.3. -/
theorem C8_witness :
    ∃ a b, to100 (.num (3/10)) = some a ∧ inv100 (.num (3/10)) = some b ∧ a + b = 100 :=
  (C8_inv100_plus_to100 (.num (3/10))).2.1 (by rfl)

/-- C10: a falsy pattern selector (`pattern_id = 0`, empty `pattern_name`,
empty `bcat_pattern` list, or all three at once) routes the request to
best-of-catalog scoring, exactly as when no selector is supplied. -/
theorem C10_falsy_selector (sq : ℚ → ℚ) (W : Weights) (mult : Multipliers)
    (patterns : List (String × PatInfo)) (spiky : PyDict) :
    api_score sq W mult patterns ⟨spiky, some 0, Option.none, Option.none⟩ =
      score_all_patterns sq W mult patterns spiky ∧
    api_score sq W mult patterns ⟨spiky, Option.none, some (""), Option.none⟩ =
      score_all_patterns sq W mult patterns spiky ∧
    api_score sq W mult patterns ⟨spiky, Option.none, Option.none, some []⟩ =
      score_all_patterns sq W mult patterns spiky ∧
    api_score sq W mult patterns ⟨spiky, some 0, some (""), some []⟩ =
      score_all_patterns sq W mult patterns spiky ∧
    api_score sq W mult patterns ⟨spiky, Option.none, Option.none, Option.none⟩ =
      score_all_patterns sq W mult patterns spiky :=
  ⟨rfl, rfl, rfl, rfl, rfl⟩

theorem lookupS_nil (x : String) : lookupS [] x = Option.none := rfl

theorem find?_replace_ne (t : List (String × String)) {k x : String} (v : String)
    (hx : x ≠ k) :
    List.find? (fun p => p.1 == x) (t.map (fun p => if p.1 == k then (k, v) else p)) =
    List.find? (fun p => p.1 == x) t := by
  induction t with
  | nil => rfl
  | cons p t ih =>
    by_cases hp : p.1 = k
    · have h1 : (if (p.1 == k) = true then (k, v) else p) = (k, v) := by simp [hp]
      rw [List.map_cons, h1, List.find?_cons_of_neg, List.find?_cons_of_neg, ih]
      · simp [hp, Ne.symm hx]
      · simp [Ne.symm hx]
    · have h1 : (if (p.1 == k) = true then (k, v) else p) = p := by simp [hp]
      rw [List.map_cons, h1]
      cases hpx : (p.1 == x)
      · rw [List.find?_cons_of_neg, List.find?_cons_of_neg, ih] <;> simp [hpx]
      · rw [List.find?_cons_of_pos, List.find?_cons_of_pos] <;> simp [hpx]

theorem lookupS_setS_ne (d : List (String × String)) {k x : String} (v : String)
    (hx : x ≠ k) : lookupS (setS d k v) x = lookupS d x := by
  unfold setS lookupS
  split
  · rw [find?_replace_ne _ _ hx]
  · rw [List.find?_append]
    have h1 : List.find? (fun p => p.1 == x) [(k, v)] = Option.none := by
      simp [Ne.symm hx]
    simp [h1]

theorem idxE_ok {l : List String} {i : ℕ} (h : i < l.length) :
    idxE l i = Except.ok (l.get ⟨i, h⟩) := by
  simp [idxE, List.getElem?_eq_getElem h, List.get_eq_getElem]

/-- C1 (amended): the pattern-multiplier stage performs no permutation
validation. Any ordering with at least four entries is accepted, and
every factor not named in the ordering's first four entries silently
receives the default `"quaternary"` rank multiplier instead of causing a
validation error. -/
theorem C1_no_validation (mult : Multipliers) (bases : List (String × ℚ))
    (order : List String) (hlen : 4 ≤ order.length) :
    ∃ out, apply_pattern mult bases order = Except.ok out ∧
      ∀ f b, (f, b) ∈ bases → f ∉ order →
        (f, clampQ (b * mult.quaternary) 0 100) ∈ out := by
  have h0 : 0 < order.length := by omega
  have h1 : 1 < order.length := by omega
  have h2 : 2 < order.length := by omega
  have h3 : 3 < order.length := by omega
  have happ : apply_pattern mult bases order = Except.ok (bases.map (fun p =>
      (p.1, clampQ (p.2 * mulGet mult ((lookupS (setS (setS (setS (setS []
        (order.get ⟨0, h0⟩) ("primary")) (order.get ⟨1, h1⟩) ("secondary"))
        (order.get ⟨2, h2⟩) ("tertiary")) (order.get ⟨3, h3⟩) ("quaternary")) p.1).getD
        ("quaternary"))) 0 100))) := by
    unfold apply_pattern
    rw [idxE_ok h0, bind_ok_left, idxE_ok h1, bind_ok_left, idxE_ok h2, bind_ok_left,
       idxE_ok h3, bind_ok_left]
  refine ⟨_, happ, ?_⟩
  intro f b hmem hnot
  have hne : ∀ i (hi : i < order.length), f ≠ order.get ⟨i, hi⟩ := by
    intro i hi heq
    exact hnot (heq ▸ List.get_mem order i hi)
  have hlook : lookupS (setS (setS (setS (setS [] (order.get ⟨0, h0⟩) ("primary"))
      (order.get ⟨1, h1⟩) ("secondary")) (order.get ⟨2, h2⟩) ("tertiary"))
      (order.get ⟨3, h3⟩) ("quaternary")) f = Option.none := by
    rw [lookupS_setS_ne _ _ (hne 3 h3), lookupS_setS_ne _ _ (hne 2 h2),
       lookupS_setS_ne _ _ (hne 1 h1), lookupS_setS_ne _ _ (hne 0 h0), lookupS_nil]
  have hval : (f, clampQ (b * mult.quaternary) 0 100) =
      (fun p => (p.1, clampQ (p.2 * mulGet mult ((lookupS (setS (setS (setS (setS []
        (order.get ⟨0, h0⟩) ("primary")) (order.get ⟨1, h1⟩) ("secondary"))
        (order.get ⟨2, h2⟩) ("tertiary")) (order.get ⟨3, h3⟩) ("quaternary")) p.1).getD
        ("quaternary"))) 0 100)) (f, b) := by
    have hq : mulGet mult ("quaternary") = mult.quaternary := by simp [mulGet]
    simp only [hlook, Option.getD_none, hq]
  rw [hval]
  exact List.mem_map_of_mem _ hmem

/-- C1 counterexample: the ordering
`["Precision", "Precision", "Resolve", "Harmony"]` repeats a factor name
and omits `Innovation`, yet the pattern-multiplier stage succeeds - no
validation error - and scores `Innovation` with the default quaternary
multiplier (0.5 here) while `Precision` takes its last-assigned
(secondary) rank. -/
theorem C1_counterexample :
    apply_pattern ⟨3/2, 6/5, 1, 1/2⟩
      [(("Precision"), 40), (("Resolve"), 40), (("Innovation"), 40), (("Harmony"), 40)]
      [("Precision"), ("Precision"), ("Resolve"), ("Harmony")] =
    Except.ok [(("Precision"), 48), (("Resolve"), 40), (("Innovation"), 20), (("Harmony"), 20)] := by
  have h : apply_pattern ⟨3/2, 6/5, 1, 1/2⟩
      [(("Precision"), 40), (("Resolve"), 40), (("Innovation"), 40), (("Harmony"), 40)]
      [("Precision"), ("Precision"), ("Resolve"), ("Harmony")] =
    Except.ok [(("Precision"), clampQ (40 * (6/5)) 0 100), (("Resolve"), clampQ (40 * 1) 0 100),
               (("Innovation"), clampQ (40 * (1/2)) 0 100), (("Harmony"), clampQ (40 * (1/2)) 0 100)] := rfl
  rw [h]
  norm_num [clampQ, min_def, max_def]

/-- Witness for the amended C1 at a concrete duplicated ordering. -/
theorem C1_no_validation_witness :
    ∃ out, apply_pattern ⟨3/2, 6/5, 1, 1/2⟩ [(("Innovation"), 40)]
        [("Precision"), ("Precision"), ("Resolve"), ("Harmony")] = Except.ok out ∧
      ∀ f b, (f, b) ∈ [((("Innovation") : String), (40 : ℚ))] →
        f ∉ [(("Precision") : String), ("Precision"), ("Resolve"), ("Harmony")] →
        (f, clampQ (b * (1/2)) 0 100) ∈ out :=
  C1_no_validation ⟨3/2, 6/5, 1, 1/2⟩ [(("Innovation"), 40)]
    [("Precision"), ("Precision"), ("Resolve"), ("Harmony")] (by norm_num)

theorem bind_error_left {α β : Type} (e : String) (f : α → Except String β) :
    ((Except.error e : Except String α) >>= f) = Except.error e := rfl

/-- C2 (amended): an unresolvable `pattern_name` does surface a
client-visible error, but an unresolvable `pattern_id` does not: with no
other usable selector the handler silently falls back to catalog entry
"15" and returns a successful single-pattern response computed from that
substitute pattern. -/
theorem C2_unknown_selector (sq : ℚ → ℚ) (W : Weights) (mult : Multipliers)
    (patterns : List (String × PatInfo)) (req : ScoreRequest) :
    (truthyPat req.bcat_pattern = false →
     (truthyId req.pattern_id = false ∨
      patterns.any (fun p => p.1 == toString (req.pattern_id.getD 0)) = false) →
     truthyName req.pattern_name = true →
     patterns.find? (fun p => pyLower p.2.name == pyLower (req.pattern_name.getD (""))) =
       Option.none →
     api_score sq W mult patterns req = Except.error ("pattern_name not found")) ∧
    (truthyPat req.bcat_pattern = false →
     truthyId req.pattern_id = true →
     patterns.any (fun p => p.1 == toString (req.pattern_id.getD 0)) = false →
     truthyName req.pattern_name = false →
     ∀ k pi res, patterns.find? (fun p => p.1 == ("15")) = some (k, pi) →
       score_one sq W mult req.spiky pi.order = Except.ok res →
       api_score sq W mult patterns req =
         Except.ok ⟨some ⟨⟨Option.none, ("custom"), pi.order⟩,
           res.factors, res.alignment_pct, res.curated, res.raw⟩, []⟩) := by
  constructor
  · intro hb hid hn hfind
    have hres : resolveOrder patterns req = Except.error ("pattern_name not found") := by
      unfold resolveOrder
      rcases hid with hid | hid <;> rw [hb, hid, hn, hfind] <;> simp
    unfold api_score
    rw [if_pos (by rw [hn]; simp)]
    rw [hres, bind_error_left]
  · intro hb hid hany hn k pi res hfind hscore
    have hres : resolveOrder patterns req = Except.ok pi.order := by
      unfold resolveOrder
      rw [hb, hid, hany, hn, hfind]
      simp
    unfold api_score
    rw [if_pos (by rw [hid]; simp)]
    rw [hres, bind_ok_left, hscore, bind_ok_left]

/-- C2 counterexample: `pattern_id = 999` resolves no catalog entry, yet
the request succeeds - the handler silently scores the substitute catalog
entry "15" and returns a successful-looking response, instead of the
client-visible error the claim requires. -/
theorem C2_counterexample :
    api_score (fun _ => 0) [] ⟨3/2, 6/5, 1, 1/2⟩ patterns24
      ⟨[], some 999, Option.none, Option.none⟩ =
    Except.ok ⟨some ⟨⟨Option.none, ("custom"),
        [("Innovation"), ("Resolve"), ("Precision"), ("Harmony")]⟩,
      [(("precision"), 0), (("resolve"), 0), (("innovation"), 0), (("harmony"), 0)],
      0, [], []⟩, []⟩ := by
  have hres : resolveOrder patterns24 ⟨[], some 999, Option.none, Option.none⟩ =
      Except.ok [("Innovation"), ("Resolve"), ("Precision"), ("Harmony")] := rfl
  have hs := score_one_empty (fun _ => (0 : ℚ)) [] ⟨3/2, 6/5, 1, 1/2⟩
    [("Innovation"), ("Resolve"), ("Precision"), ("Harmony")] (by decide)
  unfold api_score
  rw [if_pos (by rfl)]
  rw [hres, bind_ok_left, hs, bind_ok_left]

/-- Witness for the amended C2: the unknown-id fallback succeeds with
pattern "15", and an unknown name errors, both on the modelled catalog. -/
theorem C2_unknown_selector_witness :
    api_score (fun _ => 0) [] ⟨3/2, 6/5, 1, 1/2⟩ patterns24
        ⟨[], some 999, Option.none, Option.none⟩ =
      Except.ok ⟨some ⟨⟨Option.none, ("custom"),
          [("Innovation"), ("Resolve"), ("Precision"), ("Harmony")]⟩,
        [(("precision"), 0), (("resolve"), 0), (("innovation"), 0), (("harmony"), 0)],
        0, [], []⟩, []⟩ ∧
    api_score (fun _ => 0) [] ⟨3/2, 6/5, 1, 1/2⟩ patterns24
        ⟨[], Option.none, some ("No Such Pattern"), Option.none⟩ =
      Except.error ("pattern_name not found") := by
  constructor
  · exact (C2_unknown_selector (fun _ => 0) [] ⟨3/2, 6/5, 1, 1/2⟩ patterns24
      ⟨[], some 999, Option.none, Option.none⟩).2 rfl rfl rfl rfl
      ("15") ⟨("Pattern 15"), [("Innovation"), ("Resolve"), ("Precision"), ("Harmony")]⟩
      ⟨[(("precision"), 0), (("resolve"), 0), (("innovation"), 0), (("harmony"), 0)], 0, [], []⟩
      rfl
      (score_one_empty (fun _ => (0 : ℚ)) [] ⟨3/2, 6/5, 1, 1/2⟩
        [("Innovation"), ("Resolve"), ("Precision"), ("Harmony")] (by decide))
  · exact (C2_unknown_selector (fun _ => 0) [] ⟨3/2, 6/5, 1, 1/2⟩ patterns24
      ⟨[], Option.none, some ("No Such Pattern"), Option.none⟩).1 rfl (Or.inl rfl) rfl rfl

theorem setE_fresh (acc : List (String × Entry)) (k : String) (v : Entry)
    (h : k ∉ acc.map Prod.fst) : setE acc k v = acc ++ [(k, v)] := by
  unfold setE
  rw [if_neg]
  simp only [List.any_eq_true, beq_iff_eq, not_exists]
  intro p hp
  exact h (hp.2 ▸ List.mem_map_of_mem Prod.fst hp.1)

theorem scoreAllGo_spec (sq : ℚ → ℚ) (W : Weights) (mult : Multipliers) (spiky : PyDict) :
    ∀ (pats : List (String × PatInfo)) (best : Option Entry) (acc : List (String × Entry))
      (r : Response),
      (pats.map Prod.fst).Nodup →
      List.Disjoint (pats.map Prod.fst) (acc.map Prod.fst) →
      bestInv best acc →
      scoreAllGo sq W mult spiky pats best acc = Except.ok r →
      bestInv r.best r.all ∧ (r.best = Option.none → best = Option.none ∧ pats = []) := by
  intro pats
  induction pats with
  | nil =>
    intro best acc r hnd hdisj hinv hgo
    have : r = ⟨best, acc⟩ := by
      simpa [scoreAllGo] using hgo.symm
    subst this
    exact ⟨hinv, fun h => ⟨h, rfl⟩⟩
  | cons hd rest ih =>
    intro best acc r hnd hdisj hinv hgo
    obtain ⟨pid, pinfo⟩ := hd
    unfold scoreAllGo at hgo
    rw [exceptBind_ok] at hgo
    obtain ⟨res, hres, hgo⟩ := hgo
    rw [exceptBind_ok] at hgo
    obtain ⟨n, hn, hgo⟩ := hgo
    dsimp only at hgo
    set entry : Entry := ⟨⟨some n, pinfo.name, pinfo.order⟩,
      res.factors, res.alignment_pct, res.curated, res.raw⟩ with hentry
    have hpidfresh : pid ∉ acc.map Prod.fst := fun hmem => hdisj (by simp) hmem
    rw [setE_fresh acc pid entry hpidfresh] at hgo
    have hnd' : (rest.map Prod.fst).Nodup := by
      simpa using List.Nodup.of_cons (by simpa using hnd)
    have hdisj' : List.Disjoint (rest.map Prod.fst) ((acc ++ [(pid, entry)]).map Prod.fst) := by
      intro a ha hmem
      simp only [List.map_append, List.mem_append, List.map_cons, List.map_nil,
        List.mem_cons, List.not_mem_nil, or_false] at hmem
      rcases hmem with hmem | hmem
      · exact hdisj (by simp only [List.map_cons, List.mem_cons]; exact Or.inr ha) hmem
      · have hpid : pid ∉ rest.map Prod.fst := by
          have h2 : (List.map Prod.fst ((pid, pinfo) :: rest)).Nodup := hnd
          simp only [List.map_cons, List.nodup_cons] at h2
          exact h2.1
        exact hpid (hmem ▸ ha)
    have hEntryAlign : entry.alignment_pct = res.alignment_pct := rfl
    cases best with
    | none =>
      dsimp only at hgo
      have hacc : acc = [] := hinv
      subst hacc
      have hinv' : bestInv (some entry) ([] ++ [(pid, entry)]) := by
        refine ⟨?_, [], pid, [], rfl, by simp⟩
        intro p hp
        simp only [List.nil_append, List.mem_cons, List.not_mem_nil, or_false] at hp
        subst hp
        exact le_refl _
      have hres2 := ih (some entry) ([] ++ [(pid, entry)]) r hnd' (by simpa using hdisj') hinv' hgo
      refine ⟨hres2.1, fun h => ?_⟩
      exact absurd (hres2.2 h).1 (by simp)
    | some b =>
      dsimp only at hgo
      obtain ⟨hbound, pre, k, post, hsplit, hstrict⟩ := hinv
      by_cases hgt : res.alignment_pct > b.alignment_pct
      · rw [if_pos hgt] at hgo
        have hinv' : bestInv (some entry) (acc ++ [(pid, entry)]) := by
          refine ⟨?_, acc, pid, [], rfl, ?_⟩
          · intro p hp
            simp only [List.mem_append, List.mem_cons, List.not_mem_nil, or_false] at hp
            rcases hp with hp | hp
            · exact le_of_lt (lt_of_le_of_lt (hbound p hp) hgt)
            · subst hp; exact le_refl _
          · intro p hp
            exact lt_of_le_of_lt (hbound p hp) hgt
        have hres2 := ih (some entry) (acc ++ [(pid, entry)]) r hnd' hdisj' hinv' hgo
        refine ⟨hres2.1, fun h => ?_⟩
        exact absurd (hres2.2 h).1 (by simp)
      · rw [if_neg hgt] at hgo
        have hinv' : bestInv (some b) (acc ++ [(pid, entry)]) := by
          refine ⟨?_, pre, k, post ++ [(pid, entry)], ?_, hstrict⟩
          · intro p hp
            simp only [List.mem_append, List.mem_cons, List.not_mem_nil, or_false] at hp
            rcases hp with hp | hp
            · exact hbound p hp
            · subst hp
              exact le_of_not_lt hgt
          · rw [hsplit]
            simp
        have hres2 := ih (some b) (acc ++ [(pid, entry)]) r hnd' hdisj' hinv' hgo
        refine ⟨hres2.1, fun h => ?_⟩
        exact absurd (hres2.2 h).1 (by simp)

/-- C4: best-of-catalog scoring returns a `best` whose alignment
percentage is the maximum over all recorded entries, and on exact ties
the first catalog entry attaining the maximum wins, since only a strict
`>` promotes a new best. (The catalog keys are assumed distinct, as in
the canonical 24-permutation catalog.) -/
theorem C4_best_is_max (sq : ℚ → ℚ) (W : Weights) (mult : Multipliers)
    (patterns : List (String × PatInfo)) (spiky : PyDict) (r : Response)
    (hnd : (patterns.map Prod.fst).Nodup)
    (hok : score_all_patterns sq W mult patterns spiky = Except.ok r)
    (hne : patterns ≠ []) :
    ∃ b, r.best = some b ∧
      (∀ p ∈ r.all, p.2.alignment_pct ≤ b.alignment_pct) ∧
      ∃ pre k post, r.all = pre ++ (k, b) :: post ∧
        ∀ p ∈ pre, p.2.alignment_pct < b.alignment_pct := by
  have h := scoreAllGo_spec sq W mult spiky patterns Option.none [] r hnd
    (by intro a ha hmem; simp at hmem) rfl hok
  rcases hbest : r.best with _ | b
  · exact absurd ((h.2 hbest).2) hne
  · have hinv := h.1
    rw [hbest] at hinv
    obtain ⟨hbound, pre, k, post, hsplit, hstrict⟩ := hinv
    exact ⟨b, rfl, hbound, pre, k, post, hsplit, hstrict⟩

/-- Witness for C4 on a one-entry catalog over the empty bundle. -/
theorem C4_best_is_max_witness :
    ∃ b, (⟨some ⟨⟨some 1, ("A"), [("Precision"), ("Resolve"), ("Innovation"), ("Harmony")]⟩,
        [(("precision"), 0), (("resolve"), 0), (("innovation"), 0), (("harmony"), 0)], 0, [], []⟩,
      [(("1"), ⟨⟨some 1, ("A"), [("Precision"), ("Resolve"), ("Innovation"), ("Harmony")]⟩,
        [(("precision"), 0), (("resolve"), 0), (("innovation"), 0), (("harmony"), 0)], 0, [], []⟩)]⟩ :
        Response).best = some b ∧
      (∀ p ∈ (⟨some ⟨⟨some 1, ("A"), [("Precision"), ("Resolve"), ("Innovation"), ("Harmony")]⟩,
        [(("precision"), 0), (("resolve"), 0), (("innovation"), 0), (("harmony"), 0)], 0, [], []⟩,
      [(("1"), ⟨⟨some 1, ("A"), [("Precision"), ("Resolve"), ("Innovation"), ("Harmony")]⟩,
        [(("precision"), 0), (("resolve"), 0), (("innovation"), 0), (("harmony"), 0)], 0, [], []⟩)]⟩ :
        Response).all, p.2.alignment_pct ≤ b.alignment_pct) ∧
      ∃ pre k post, (⟨some ⟨⟨some 1, ("A"), [("Precision"), ("Resolve"), ("Innovation"), ("Harmony")]⟩,
        [(("precision"), 0), (("resolve"), 0), (("innovation"), 0), (("harmony"), 0)], 0, [], []⟩,
      [(("1"), ⟨⟨some 1, ("A"), [("Precision"), ("Resolve"), ("Innovation"), ("Harmony")]⟩,
        [(("precision"), 0), (("resolve"), 0), (("innovation"), 0), (("harmony"), 0)], 0, [], []⟩)]⟩ :
        Response).all = pre ++ (k, b) :: post ∧
        ∀ p ∈ pre, p.2.alignment_pct < b.alignment_pct := by
  have hs1 := score_one_empty (fun _ => (0 : ℚ)) [] ⟨3/2, 6/5, 1, 1/2⟩
    [("Precision"), ("Resolve"), ("Innovation"), ("Harmony")] (List.Perm.refl _)
  have hgo : score_all_patterns (fun _ => (0 : ℚ)) [] ⟨3/2, 6/5, 1, 1/2⟩
      [(("1"), ⟨("A"), [("Precision"), ("Resolve"), ("Innovation"), ("Harmony")]⟩)] [] =
      Except.ok ⟨some ⟨⟨some 1, ("A"), [("Precision"), ("Resolve"), ("Innovation"), ("Harmony")]⟩,
          [(("precision"), 0), (("resolve"), 0), (("innovation"), 0), (("harmony"), 0)], 0, [], []⟩,
        [(("1"), ⟨⟨some 1, ("A"), [("Precision"), ("Resolve"), ("Innovation"), ("Harmony")]⟩,
          [(("precision"), 0), (("resolve"), 0), (("innovation"), 0), (("harmony"), 0)], 0, [], []⟩)]⟩ := by
    unfold score_all_patterns scoreAllGo
    rw [hs1, bind_ok_left, show strToIntE ("1") = Except.ok 1 from rfl, bind_ok_left]
    rfl
  exact C4_best_is_max (fun _ => (0 : ℚ)) [] ⟨3/2, 6/5, 1, 1/2⟩
    [(("1"), ⟨("A"), [("Precision"), ("Resolve"), ("Innovation"), ("Harmony")]⟩)] [] _
    (by simp) hgo (by simp)

theorem to100_num_mem {x q : ℚ} (h : to100 (.num x) = some q) : 0 ≤ q ∧ q ≤ 100 :=
  to100_mem h

theorem normPositivity_range (h : Heap) (L : PyDict) {o : Out} {k : String} {q : ℚ}
    (hok : normPositivity h L = Except.ok o) (hmem : (k, some q) ∈ o)
    (hk : k ≠ ("negativity_inv")) : 0 ≤ q ∧ q ≤ 100 := by
  unfold normPositivity at hok
  split at hok
  · rw [exceptBind_ok] at hok
    obtain ⟨p, hp, hok⟩ := hok
    rw [exceptBind_ok] at hok
    obtain ⟨neu, hneu, hok⟩ := hok
    rw [exceptBind_ok] at hok
    obtain ⟨neg, hneg, hok⟩ := hok
    have ho : o = [(("positivity"), to100 (.num (p + (1/2) * neu))),
        (("negativity_inv"), some (100 - (if neg ≤ 1 then neg * 100 else neg)))] := by
      simpa using hok.symm
    subst ho
    simp only [List.mem_cons, List.not_mem_nil, or_false, Prod.mk.injEq] at hmem
    rcases hmem with ⟨hk1, hv⟩ | ⟨hk1, hv⟩
    · exact to100_mem hv.symm
    · exact absurd hk1 hk
  · split at hok
    · have ho : o = [(("positivity"), to100 (getD L ("positivity") .none))] := by
        simpa using hok.symm
      subst ho
      simp only [List.mem_cons, List.not_mem_nil, or_false, Prod.mk.injEq] at hmem
      exact to100_mem hmem.2.symm
    · have ho : o = [] := by simpa using hok.symm
      subst ho
      simp at hmem

theorem normObjectivity_range (h : Heap) (L : PyDict) {k : String} {q : ℚ}
    (hmem : (k, some q) ∈ normObjectivity h L) : 0 ≤ q ∧ q ≤ 100 := by
  unfold normObjectivity at hmem
  split at hmem
  · split at hmem <;>
    · simp only [List.mem_cons, List.not_mem_nil, or_false, Prod.mk.injEq] at hmem
      exact to100_mem hmem.2.symm
  · simp at hmem

theorem normFiller_range (L : PyDict) {k : String} {q : ℚ}
    (hmem : (k, some q) ∈ normFiller L) : 0 ≤ q ∧ q ≤ 100 := by
  unfold normFiller at hmem
  split at hmem
  · simp only [List.mem_cons, List.not_mem_nil, or_false, Prod.mk.injEq] at hmem
    exact inv100_mem hmem.2.symm
  · simp at hmem

theorem normSentenceLen_range (L : PyDict) {k : String} {q : ℚ}
    (hmem : (k, some q) ∈ normSentenceLen L) : 0 ≤ q ∧ q ≤ 100 := by
  unfold normSentenceLen at hmem
  split at hmem
  · simp only [List.mem_cons, List.not_mem_nil, or_false, Prod.mk.injEq] at hmem
    exact minmax_mem hmem.2.symm
  · simp at hmem

theorem normPatience_range (L : PyDict) {k : String} {q : ℚ}
    (hmem : (k, some q) ∈ normPatience L) : 0 ≤ q ∧ q ≤ 100 := by
  unfold normPatience at hmem
  split at hmem
  · simp only [List.mem_cons, List.not_mem_nil, or_false, Prod.mk.injEq] at hmem
    exact minmax_mem hmem.2.symm
  · simp at hmem

theorem normKeywords_range (h : Heap) (L : PyDict) {k : String} {q : ℚ}
    (hmem : (k, some q) ∈ normKeywords h L) : 0 ≤ q ∧ q ≤ 100 := by
  unfold normKeywords at hmem
  split at hmem
  case h_1 kd hkd =>
    rw [show (if kd.isEmpty = true then ([] : Out)
        else
          let vals := List.filterMap (fun p => to100 p.2) kd
          if vals.isEmpty = true then ([] : Out)
          else [(("kw_strength"), some (vals.sum / vals.length))]) =
        (if kd.isEmpty = true then ([] : Out)
        else if (List.filterMap (fun p => to100 p.2) kd).isEmpty = true then ([] : Out)
        else [(("kw_strength"), some ((List.filterMap (fun p => to100 p.2) kd).sum /
          (List.filterMap (fun p => to100 p.2) kd).length))]) from rfl] at hmem
    split at hmem
    · simp at hmem
    split at hmem
    · simp at hmem
    case isFalse hvals =>
      simp only [List.mem_cons, List.not_mem_nil, or_false, Prod.mk.injEq] at hmem
      obtain ⟨hk1, hv⟩ := hmem
      have hv2 : q = (kd.filterMap (fun p => to100 p.2)).sum /
          (kd.filterMap (fun p => to100 p.2)).length := by
        exact_mod_cast ((Option.some.injEq _ _).mp hv.symm).symm
      rw [hv2]
      apply avg100_range
      · intro x hx
        obtain ⟨p, hp, hpx⟩ := List.mem_filterMap.mp hx
        exact to100_mem hpx
      · intro hempty
        rw [hempty] at hvals
        simp at hvals
  · simp at hmem

theorem normCuriosity_range (L : PyDict) {k : String} {q : ℚ}
    (hmem : (k, some q) ∈ normCuriosity L) : 0 ≤ q ∧ q ≤ 100 := by
  unfold normCuriosity at hmem
  split at hmem
  · simp only [List.mem_cons, List.not_mem_nil, or_false, Prod.mk.injEq] at hmem
    exact to100_mem hmem.2.symm
  · simp at hmem

theorem normQuestion_range (L : PyDict) {k : String} {q : ℚ}
    (hmem : (k, some q) ∈ normQuestion L) : 0 ≤ q ∧ q ≤ 100 := by
  unfold normQuestion at hmem
  split at hmem
  · simp only [List.mem_cons, List.not_mem_nil, or_false, Prod.mk.injEq] at hmem
    exact to100_mem hmem.2.symm
  · simp at hmem

theorem normOffensiveness_range (L : PyDict) {k : String} {q : ℚ}
    (hmem : (k, some q) ∈ normOffensiveness L) : 0 ≤ q ∧ q ≤ 100 := by
  unfold normOffensiveness at hmem
  split at hmem
  · simp only [List.mem_cons, List.not_mem_nil, or_false, Prod.mk.injEq] at hmem
    exact inv100_mem hmem.2.symm
  · simp at hmem

theorem normLanguage_range (h : Heap) (L : PyDict) (o : Out) (L1 : PyDict) {k : String} {q : ℚ}
    (hok : normLanguage h L = Except.ok (o, L1)) (hmem : (k, some q) ∈ o)
    (hk : k ≠ ("negativity_inv")) : 0 ≤ q ∧ q ≤ 100 := by
  unfold normLanguage at hok
  rw [exceptBind_ok] at hok
  obtain ⟨a, ha, hok⟩ := hok
  have ho : o = a ++ normObjectivity h L ++ normFiller L ++ normSentenceLen L ++
      normPatience L ++ normKeywords h L ++ normCuriosity L ++
      normQuestion (questionRatioFix h (questionStrFix L)) ++
      normOffensiveness (offensivenessStrFix (questionRatioFix h (questionStrFix L))) := by
    have h2 := hok.symm
    simp only [Except.ok.injEq, Prod.mk.injEq] at h2
    exact h2.1
  subst ho
  simp only [List.mem_append] at hmem
  rcases hmem with ((((((((hmem | hmem) | hmem) | hmem) | hmem) | hmem) | hmem) | hmem) | hmem)
  · exact normPositivity_range h L ha hmem hk
  · exact normObjectivity_range h L hmem
  · exact normFiller_range L hmem
  · exact normSentenceLen_range L hmem
  · exact normPatience_range L hmem
  · exact normKeywords_range h L hmem
  · exact normCuriosity_range L hmem
  · exact normQuestion_range _ hmem
  · exact normOffensiveness_range _ hmem

theorem normEnergy_range (V : PyDict) {o : Out} {k : String} {q : ℚ}
    (hok : normEnergy V = Except.ok o) (hmem : (k, some q) ∈ o) : 0 ≤ q ∧ q ≤ 100 := by
  unfold normEnergy at hok
  split at hok
  · split at hok
    case h_1 x hx =>
      have ho : o = [(("energy"), to100 (.num (if x ≤ 1 then x else x / 100)))] := by
        simpa using hok.symm
      subst ho
      simp only [List.mem_cons, List.not_mem_nil, or_false, Prod.mk.injEq] at hmem
      exact to100_mem hmem.2.symm
    case h_2 b hb =>
      have ho : o = [(("energy"), to100 (.bool b))] := by
        simpa using hok.symm
      subst ho
      simp only [List.mem_cons, List.not_mem_nil, or_false, Prod.mk.injEq] at hmem
      exact to100_mem hmem.2.symm
    · simp at hok
  · have ho : o = [] := by simpa using hok.symm
    subst ho
    simp at hmem

theorem normVocalEmotions_range (h : Heap) (V : PyDict) {o : Out} {k : String} {q : ℚ}
    (hok : normVocalEmotions h V = Except.ok o) (hmem : (k, some q) ∈ o) :
    0 ≤ q ∧ q ≤ 100 := by
  unfold normVocalEmotions at hok
  split at hok
  case h_1 ve hve =>
    split at hok
    · have ho : o = [] := by simpa using hok.symm
      subst ho
      simp at hmem
    · rw [exceptBind_ok] at hok
      obtain ⟨s, hs, hok⟩ := hok
      rw [exceptBind_ok] at hok
      obtain ⟨a, ha, hok⟩ := hok
      have ho : o = (match getN ve ("happy") with
          | some v => [(("emo_pos"), to100 v)]
          | Option.none => []) ++
          (match getN ve ("neutral") with
          | some v => [(("emo_neu"), to100 v)]
          | Option.none => []) ++
          [(("emo_neg_inv"), inv100 (.num (s + a)))] := by
        simpa using hok.symm
      subst ho
      simp only [List.mem_append, List.mem_cons, List.not_mem_nil, or_false] at hmem
      rcases hmem with (hmem | hmem) | hmem
      · split at hmem <;> simp only [List.mem_cons, List.not_mem_nil, or_false,
          Prod.mk.injEq] at hmem
        exact to100_mem hmem.2.symm
      · split at hmem <;> simp only [List.mem_cons, List.not_mem_nil, or_false,
          Prod.mk.injEq] at hmem
        exact to100_mem hmem.2.symm
      · rw [Prod.mk.injEq] at hmem
        exact inv100_mem hmem.2.symm
  · have ho : o = [] := by simpa using hok.symm
    subst ho
    simp at hmem

theorem normAttention_range (h : Heap) (F : PyDict) {o : Out} {k : String} {q : ℚ}
    (hok : normAttention h F = Except.ok o) (hmem : (k, some q) ∈ o) :
    0 ≤ q ∧ q ≤ 100 := by
  unfold normAttention at hok
  split at hok
  case h_1 att hatt =>
    split at hok
    · have ho : o = [] := by simpa using hok.symm
      subst ho
      simp at hmem
    · rw [exceptBind_ok] at hok
      obtain ⟨attPart, hattPart, hok⟩ := hok
      have ho : o = attPart ++ (match getN att ("distracted") with
          | some v => [(("attention_dist_inv"), inv100 v)]
          | Option.none => []) := by
        simpa using hok.symm
      subst ho
      simp only [List.mem_append] at hmem
      rcases hmem with hmem | hmem
      · split at hattPart
        · have hap : attPart = [] := by simpa using hattPart.symm
          subst hap
          simp at hmem
        · rw [exceptBind_ok] at hattPart
          obtain ⟨x, hx, hattPart⟩ := hattPart
          rw [exceptBind_ok] at hattPart
          obtain ⟨y, hy, hattPart⟩ := hattPart
          have hap : attPart = [(("attention_att"), to100 (.num (x + (1/2) * y)))] := by
            simpa using hattPart.symm
          subst hap
          simp only [List.mem_cons, List.not_mem_nil, or_false, Prod.mk.injEq] at hmem
          exact to100_mem hmem.2.symm
      · split at hmem <;> simp only [List.mem_cons, List.not_mem_nil, or_false,
          Prod.mk.injEq] at hmem
        exact inv100_mem hmem.2.symm
  · have ho : o = [] := by simpa using hok.symm
    subst ho
    simp at hmem

theorem normFacialEmotions_range (h : Heap) (F : PyDict) {o : Out} {k : String} {q : ℚ}
    (hok : normFacialEmotions h F = Except.ok o) (hmem : (k, some q) ∈ o) :
    0 ≤ q ∧ q ≤ 100 := by
  unfold normFacialEmotions at hok
  split at hok
  case h_1 fe hfe =>
    split at hok
    · have ho : o = [] := by simpa using hok.symm
      subst ho
      simp at hmem
    · rw [exceptBind_ok] at hok
      obtain ⟨n1, hn1, hok⟩ := hok
      rw [exceptBind_ok] at hok
      obtain ⟨n2, hn2, hok⟩ := hok
      rw [exceptBind_ok] at hok
      obtain ⟨d1, hd1, hok⟩ := hok
      rw [exceptBind_ok] at hok
      obtain ⟨d2, hd2, hok⟩ := hok
      have ho : o = (match getN fe ("happy") with
          | some v => [(("facial_emo_pos"), to100 v)]
          | Option.none => []) ++
          [(("facial_emo_neu"), to100 (.num (n1 + n2))),
           (("facial_emo_dis_inv"), inv100 (.num (d1 + d2)))] := by
        simpa using hok.symm
      subst ho
      simp only [List.mem_append, List.mem_cons, List.not_mem_nil, or_false] at hmem
      rcases hmem with hmem | hmem | hmem
      · split at hmem <;> simp only [List.mem_cons, List.not_mem_nil, or_false,
          Prod.mk.injEq] at hmem
        exact to100_mem hmem.2.symm
      · rw [Prod.mk.injEq] at hmem
        exact to100_mem hmem.2.symm
      · rw [Prod.mk.injEq] at hmem
        exact inv100_mem hmem.2.symm
  · have ho : o = [] := by simpa using hok.symm
    subst ho
    simp at hmem

theorem normInteraction_range (I : PyDict) {k : String} {q : ℚ}
    (hmem : (k, some q) ∈ normInteraction I) : 0 ≤ q ∧ q ≤ 100 := by
  unfold normInteraction at hmem
  simp only [List.mem_append] at hmem
  rcases hmem with hmem | hmem
  · split at hmem <;> simp only [List.mem_cons, List.not_mem_nil, or_false,
      Prod.mk.injEq, List.not_mem_nil] at hmem
    exact talk_balance_mem hmem.2.symm
  · split at hmem <;> simp only [List.mem_cons, List.not_mem_nil, or_false,
      Prod.mk.injEq, List.not_mem_nil] at hmem
    exact minmax_mem hmem.2.symm

theorem normHighlevel_range (H : PyDict) {k : String} {q : ℚ}
    (hmem : (k, some q) ∈ normHighlevel H) : 0 ≤ q ∧ q ≤ 100 := by
  unfold normHighlevel at hmem
  simp only [List.mem_append] at hmem
  rcases hmem with hmem | hmem <;>
  · split at hmem <;> simp only [List.mem_cons, List.not_mem_nil, or_false,
      Prod.mk.injEq, List.not_mem_nil] at hmem
    exact to100_mem hmem.2.symm

/-- C5 (amended): every numeric value of the normalized sub-metric set
lies in [0, 100] for every key except `negativity_inv`; that key alone is
written without clamping (`100 - (neg*100 if neg <= 1 else neg)`) and
escapes the range for out-of-range class weights. (Keys whose source
value cannot be coerced hold the absent marker rather than a number.) -/
theorem C5_range_except_negativity (spiky : PyDict) (o : Out) (k : String) (q : ℚ)
    (hok : normalize_metrics spiky = Except.ok o)
    (hmem : (k, some q) ∈ o) (hk : k ≠ ("negativity_inv")) : 0 ≤ q ∧ q ≤ 100 := by
  unfold normalize_metrics at hok
  rw [exceptBind_ok] at hok
  obtain ⟨L, hL, hok⟩ := hok
  rw [exceptBind_ok] at hok
  obtain ⟨V, hV, hok⟩ := hok
  rw [exceptBind_ok] at hok
  obtain ⟨F, hF, hok⟩ := hok
  rw [exceptBind_ok] at hok
  obtain ⟨I, hI, hok⟩ := hok
  rw [exceptBind_ok] at hok
  obtain ⟨H, hH, hok⟩ := hok
  rw [exceptBind_ok] at hok
  obtain ⟨lang, hlang, hok⟩ := hok
  rw [exceptBind_ok] at hok
  obtain ⟨V1, hV1, hok⟩ := hok
  rw [exceptBind_ok] at hok
  obtain ⟨eo, heo, hok⟩ := hok
  rw [exceptBind_ok] at hok
  obtain ⟨vo, hvo, hok⟩ := hok
  rw [exceptBind_ok] at hok
  obtain ⟨ao, hao, hok⟩ := hok
  rw [exceptBind_ok] at hok
  obtain ⟨fo, hfo, hok⟩ := hok
  have ho : o = lang.1 ++ eo ++ vo ++ ao ++ fo ++ normInteraction I ++ normHighlevel H := by
    simpa using hok.symm
  subst ho
  simp only [List.mem_append] at hmem
  rcases hmem with ((((((hmem | hmem) | hmem) | hmem) | hmem) | hmem) | hmem)
  · exact normLanguage_range emptyHeap L lang.1 lang.2 (by rw [← hlang]) hmem hk
  · exact normEnergy_range V1 heo hmem
  · exact normVocalEmotions_range emptyHeap V1 hvo hmem
  · exact normAttention_range emptyHeap F hao hmem
  · exact normFacialEmotions_range emptyHeap F hfo hmem
  · exact normInteraction_range I hmem
  · exact normHighlevel_range H hmem

/-- C5 counterexample: a `negative` class weight of 200 produces
`negativity_inv = -100`, a normalized sub-metric value strictly outside
[0, 100]. -/
theorem C5_counterexample :
    normalize_metrics [(("language"), .dict [(("polarity"), .dict [(("negative"), .num 200)])])] =
      Except.ok [(("positivity"), some 0), (("negativity_inv"), some (-100))] ∧
    ¬ (0 : ℚ) ≤ -100 := by
  constructor
  · have h : normalize_metrics
        [(("language"), .dict [(("polarity"), .dict [(("negative"), .num 200)])])] =
        Except.ok [(("positivity"), some (to100q (0 + (1/2) * 0))),
          (("negativity_inv"), some (100 - (if (200 : ℚ) ≤ 1 then 200 * 100 else 200)))] := rfl
    rw [h]
    norm_num [to100q, clampQ, min_def, max_def]
  · norm_num

/-- Witness for the amended C5 at a perfectly balanced talk ratio. -/
theorem C5_range_witness : (0 : ℚ) ≤ 100 ∧ (100 : ℚ) ≤ 100 := by
  have h : normalize_metrics [(("interaction"), .dict [(("talk_listen"), .num (1/2))])] =
      Except.ok [(("talk_balance"), some (clampQ (100 - |(1/2 : ℚ) - 1/2| * 200) 0 100))] := rfl
  have h2 : normalize_metrics [(("interaction"), .dict [(("talk_listen"), .num (1/2))])] =
      Except.ok [(("talk_balance"), some 100)] := by
    rw [h]
    norm_num [clampQ, min_def, max_def]
  exact C5_range_except_negativity
    [(("interaction"), .dict [(("talk_listen"), .num (1/2))])]
    [(("talk_balance"), some 100)] ("talk_balance") 100 h2 (by simp) (by decide)

theorem find?_key_replace_ne {β : Type} (t : List (String × β)) {k x : String} (v : β)
    (hx : x ≠ k) :
    List.find? (fun p => p.1 == x) (t.map (fun p => if p.1 == k then (k, v) else p)) =
    List.find? (fun p => p.1 == x) t := by
  induction t with
  | nil => rfl
  | cons p t ih =>
    by_cases hp : p.1 = k
    · have h1 : (if (p.1 == k) = true then (k, v) else p) = (k, v) := by simp [hp]
      rw [List.map_cons, h1, List.find?_cons_of_neg, List.find?_cons_of_neg, ih]
      · simp [hp, Ne.symm hx]
      · simp [Ne.symm hx]
    · have h1 : (if (p.1 == k) = true then (k, v) else p) = p := by simp [hp]
      rw [List.map_cons, h1]
      cases hpx : (p.1 == x)
      · rw [List.find?_cons_of_neg, List.find?_cons_of_neg, ih] <;> simp [hpx]
      · rw [List.find?_cons_of_pos, List.find?_cons_of_pos] <;> simp [hpx]

theorem getV_setV_ne (d : PyDict) {k x : String} (v : Val) (hx : x ≠ k) :
    getV (setV d k v) x = getV d x := by
  unfold setV getV
  split
  · rw [find?_key_replace_ne _ _ hx]
  · rw [List.find?_append]
    have h1 : List.find? (fun p => p.1 == x) [(k, v)] = Option.none := by
      simp [Ne.symm hx]
    simp [h1]

theorem vocalEnergyFix_emotions (h : Heap) (V V1 : PyDict)
    (hfix : vocalEnergyFix h V = Except.ok V1) :
    getV V1 ("emotions") = getV V ("emotions") := by
  unfold vocalEnergyFix at hfix
  split at hfix
  · rw [exceptBind_ok] at hfix
    obtain ⟨e, he, hfix⟩ := hfix
    rw [exceptBind_ok] at hfix
    obtain ⟨m, hm, hfix⟩ := hfix
    have : V1 = setV V ("energy") (.num (if e > 0 then e else 1 - m)) := by
      simpa using hfix.symm
    subst this
    exact getV_setV_ne V _ (by decide)
  · have : V1 = V := by simpa using hfix.symm
    subst this
    rfl

theorem keys_normPositivity {h : Heap} {L : PyDict} {o : Out} {k : String}
    (hok : normPositivity h L = Except.ok o) (hmem : k ∈ o.map Prod.fst) :
    k = ("positivity") ∨ k = ("negativity_inv") := by
  unfold normPositivity at hok
  split at hok
  · rw [exceptBind_ok] at hok
    obtain ⟨p, hp, hok⟩ := hok
    rw [exceptBind_ok] at hok
    obtain ⟨neu, hneu, hok⟩ := hok
    rw [exceptBind_ok] at hok
    obtain ⟨neg, hneg, hok⟩ := hok
    have ho : o = [(("positivity"), to100 (.num (p + (1/2) * neu))),
        (("negativity_inv"), some (100 - (if neg ≤ 1 then neg * 100 else neg)))] := by
      simpa using hok.symm
    subst ho
    simpa using hmem
  · split at hok
    · have ho : o = [(("positivity"), to100 (getD L ("positivity") .none))] := by
        simpa using hok.symm
      subst ho
      simp only [List.map_cons, List.map_nil, List.mem_cons, List.not_mem_nil, or_false] at hmem
      exact Or.inl hmem
    · have ho : o = [] := by simpa using hok.symm
      subst ho
      simp at hmem

theorem keys_normLanguage {h : Heap} {L : PyDict} {o : Out} {L1 : PyDict} {k : String}
    (hok : normLanguage h L = Except.ok (o, L1)) (hmem : k ∈ o.map Prod.fst) :
    k ∈ [("positivity"), ("negativity_inv"), ("objectivity"), ("filler_inv"),
         ("avg_sentence_len_norm"), ("patience_norm"), ("kw_strength"),
         ("lang_emo_curiosity"), ("question_ratio"), ("offensiveness_inv")] := by
  unfold normLanguage at hok
  rw [exceptBind_ok] at hok
  obtain ⟨a, ha, hok⟩ := hok
  have ho : o = a ++ normObjectivity h L ++ normFiller L ++ normSentenceLen L ++
      normPatience L ++ normKeywords h L ++ normCuriosity L ++
      normQuestion (questionRatioFix h (questionStrFix L)) ++
      normOffensiveness (offensivenessStrFix (questionRatioFix h (questionStrFix L))) := by
    have h2 := hok.symm
    simp only [Except.ok.injEq, Prod.mk.injEq] at h2
    exact h2.1
  subst ho
  simp only [List.map_append, List.mem_append] at hmem
  rcases hmem with ((((((((hmem | hmem) | hmem) | hmem) | hmem) | hmem) | hmem) | hmem) | hmem)
  · rcases keys_normPositivity ha hmem with h2 | h2 <;> simp [h2]
  · unfold normObjectivity at hmem
    split at hmem
    · split at hmem <;> simp_all
    · simp at hmem
  · unfold normFiller at hmem
    split at hmem <;> simp_all
  · unfold normSentenceLen at hmem
    split at hmem <;> simp_all
  · unfold normPatience at hmem
    split at hmem <;> simp_all
  · unfold normKeywords at hmem
    split at hmem
    · dsimp only at hmem
      split at hmem
      · simp at hmem
      · split at hmem <;> simp_all
    · simp at hmem
  · unfold normCuriosity at hmem
    split at hmem <;> simp_all
  · unfold normQuestion at hmem
    split at hmem <;> simp_all
  · unfold normOffensiveness at hmem
    split at hmem <;> simp_all

theorem keys_normEnergy {V : PyDict} {o : Out} {k : String}
    (hok : normEnergy V = Except.ok o) (hmem : k ∈ o.map Prod.fst) : k = ("energy") := by
  unfold normEnergy at hok
  split at hok
  · split at hok <;> first
      | (have ho := hok.symm
         simp only [Except.ok.injEq] at ho
         subst ho
         simpa using hmem)
      | simp at hok
  · have ho : o = [] := by simpa using hok.symm
    subst ho
    simp at hmem

theorem keys_normAttention {h : Heap} {F : PyDict} {o : Out} {k : String}
    (hok : normAttention h F = Except.ok o) (hmem : k ∈ o.map Prod.fst) :
    k = ("attention_att") ∨ k = ("attention_dist_inv") := by
  unfold normAttention at hok
  split at hok
  case h_1 att hatt =>
    split at hok
    · have ho : o = [] := by simpa using hok.symm
      subst ho
      simp at hmem
    · rw [exceptBind_ok] at hok
      obtain ⟨attPart, hattPart, hok⟩ := hok
      have ho : o = attPart ++ (match getN att ("distracted") with
          | some v => [(("attention_dist_inv"), inv100 v)]
          | Option.none => []) := by
        simpa using hok.symm
      subst ho
      simp only [List.map_append, List.mem_append] at hmem
      rcases hmem with hmem | hmem
      · split at hattPart
        · have hap : attPart = [] := by simpa using hattPart.symm
          subst hap
          simp at hmem
        · rw [exceptBind_ok] at hattPart
          obtain ⟨x, hx, hattPart⟩ := hattPart
          rw [exceptBind_ok] at hattPart
          obtain ⟨y, hy, hattPart⟩ := hattPart
          have hap : attPart = [(("attention_att"), to100 (.num (x + (1/2) * y)))] := by
            simpa using hattPart.symm
          subst hap
          simp only [List.map_cons, List.map_nil, List.mem_cons, List.not_mem_nil,
            or_false] at hmem
          exact Or.inl hmem
      · split at hmem <;> simp_all
  · have ho : o = [] := by simpa using hok.symm
    subst ho
    simp at hmem

theorem keys_normFacialEmotions {h : Heap} {F : PyDict} {o : Out} {k : String}
    (hok : normFacialEmotions h F = Except.ok o) (hmem : k ∈ o.map Prod.fst) :
    k = ("facial_emo_pos") ∨ k = ("facial_emo_neu") ∨ k = ("facial_emo_dis_inv") := by
  unfold normFacialEmotions at hok
  split at hok
  · split at hok
    · have ho : o = [] := by simpa using hok.symm
      subst ho
      simp at hmem
    · rw [exceptBind_ok] at hok
      obtain ⟨n1, hn1, hok⟩ := hok
      rw [exceptBind_ok] at hok
      obtain ⟨n2, hn2, hok⟩ := hok
      rw [exceptBind_ok] at hok
      obtain ⟨d1, hd1, hok⟩ := hok
      rw [exceptBind_ok] at hok
      obtain ⟨d2, hd2, hok⟩ := hok
      have ho := hok.symm
      simp only [Except.ok.injEq] at ho
      subst ho
      simp only [List.map_append, List.mem_append] at hmem
      rcases hmem with hmem | hmem
      · split at hmem <;> simp_all
      · simp_all
  · have ho : o = [] := by simpa using hok.symm
    subst ho
    simp at hmem

theorem keys_normInteraction {I : PyDict} {k : String}
    (hmem : k ∈ (normInteraction I).map Prod.fst) :
    k = ("talk_balance") ∨ k = ("speed_norm") := by
  unfold normInteraction at hmem
  simp only [List.map_append, List.mem_append] at hmem
  rcases hmem with hmem | hmem <;> split at hmem <;> simp_all

theorem keys_normHighlevel {H : PyDict} {k : String}
    (hmem : k ∈ (normHighlevel H).map Prod.fst) :
    k = ("action_items") ∨ k = ("followup_questions") := by
  unfold normHighlevel at hmem
  simp only [List.map_append, List.mem_append] at hmem
  rcases hmem with hmem | hmem <;> split at hmem <;> simp_all

theorem orZeroNum_absent (h : Heap) (d : PyDict) (k : String)
    (hk : getN d k = Option.none) :
    orZeroNum h (getD d k (.num 0)) = Except.ok 0 := by
  unfold getN at hk
  cases hv : getV d k with
  | none => simp [getD, hv, orZeroNum, isTruthy]
  | some v =>
    rw [hv] at hk
    cases v <;> simp_all [getD, orZeroNum, isTruthy]

theorem normVocalEmotions_char (h : Heap) (V : PyDict) {ve : PyDict} {o : Out}
    (hve : asDict h (orEmpty h (getV V ("emotions"))) = some ve)
    (hne : ve.isEmpty = false)
    (hok : normVocalEmotions h V = Except.ok o) :
    ∃ s a, orZeroNum h (getD ve ("sad") (.num 0)) = Except.ok s ∧
      orZeroNum h (getD ve ("angry") (.num 0)) = Except.ok a ∧
      o = (match getN ve ("happy") with
          | some v => [(("emo_pos"), to100 v)] | Option.none => []) ++
          (match getN ve ("neutral") with
          | some v => [(("emo_neu"), to100 v)] | Option.none => []) ++
          [(("emo_neg_inv"), inv100 (.num (s + a)))] := by
  unfold normVocalEmotions at hok
  rw [hve] at hok
  dsimp only at hok
  rw [hne] at hok
  simp only [Bool.false_eq_true, if_false] at hok
  rw [exceptBind_ok] at hok
  obtain ⟨s, hs, hok⟩ := hok
  rw [exceptBind_ok] at hok
  obtain ⟨a, ha, hok⟩ := hok
  exact ⟨s, a, hs, ha, by simpa using hok.symm⟩

theorem normFacialEmotions_char (h : Heap) (F : PyDict) {fe : PyDict} {o : Out}
    (hfe : asDict h (orEmpty h (getV F ("emotions"))) = some fe)
    (hne : fe.isEmpty = false)
    (hok : normFacialEmotions h F = Except.ok o) :
    ∃ n1 n2 d1 d2, orZeroNum h (getD fe ("neutral") (.num 0)) = Except.ok n1 ∧
      orZeroNum h (getD fe ("surprised") (.num 0)) = Except.ok n2 ∧
      orZeroNum h (getD fe ("dissatisfied") (.num 0)) = Except.ok d1 ∧
      orZeroNum h (getD fe ("annoyed") (.num 0)) = Except.ok d2 ∧
      o = (match getN fe ("happy") with
          | some v => [(("facial_emo_pos"), to100 v)] | Option.none => []) ++
          [(("facial_emo_neu"), to100 (.num (n1 + n2))),
           (("facial_emo_dis_inv"), inv100 (.num (d1 + d2)))] := by
  unfold normFacialEmotions at hok
  rw [hfe] at hok
  dsimp only at hok
  rw [hne] at hok
  simp only [Bool.false_eq_true, if_false] at hok
  rw [exceptBind_ok] at hok
  obtain ⟨n1, hn1, hok⟩ := hok
  rw [exceptBind_ok] at hok
  obtain ⟨n2, hn2, hok⟩ := hok
  rw [exceptBind_ok] at hok
  obtain ⟨d1, hd1, hok⟩ := hok
  rw [exceptBind_ok] at hok
  obtain ⟨d2, hd2, hok⟩ := hok
  exact ⟨n1, n2, d1, d2, hn1, hn2, hd1, hd2, by simpa using hok.symm⟩

theorem keys_normVocalEmotions {h : Heap} {V : PyDict} {o : Out} {k : String}
    (hok : normVocalEmotions h V = Except.ok o) (hmem : k ∈ o.map Prod.fst) :
    k = ("emo_pos") ∨ k = ("emo_neu") ∨ k = ("emo_neg_inv") := by
  unfold normVocalEmotions at hok
  split at hok
  · split at hok
    · have ho : o = [] := by simpa using hok.symm
      subst ho
      simp at hmem
    · rw [exceptBind_ok] at hok
      obtain ⟨s, hs, hok⟩ := hok
      rw [exceptBind_ok] at hok
      obtain ⟨a, ha, hok⟩ := hok
      have ho := hok.symm
      simp only [Except.ok.injEq] at ho
      subst ho
      simp only [List.map_append, List.mem_append] at hmem
      rcases hmem with (hmem | hmem) | hmem
      · split at hmem <;> simp_all
      · split at hmem <;> simp_all
      · simp_all
  · have ho : o = [] := by simpa using hok.symm
    subst ho
    simp at hmem

theorem normalize_metrics_parts {spiky : PyDict} {o : Out}
    (hok : normalize_metrics spiky = Except.ok o) :
    ∃ L V F I H lang V1 eo vo ao fo,
      getSection emptyHeap spiky ("language") = Except.ok L ∧
      getSection emptyHeap spiky ("vocal") = Except.ok V ∧
      getSection emptyHeap spiky ("facial") = Except.ok F ∧
      getSection emptyHeap spiky ("interaction") = Except.ok I ∧
      getSection emptyHeap spiky ("highlevel") = Except.ok H ∧
      normLanguage emptyHeap L = Except.ok lang ∧
      vocalEnergyFix emptyHeap V = Except.ok V1 ∧
      normEnergy V1 = Except.ok eo ∧
      normVocalEmotions emptyHeap V1 = Except.ok vo ∧
      normAttention emptyHeap F = Except.ok ao ∧
      normFacialEmotions emptyHeap F = Except.ok fo ∧
      o = lang.1 ++ eo ++ vo ++ ao ++ fo ++ normInteraction I ++ normHighlevel H := by
  unfold normalize_metrics at hok
  rw [exceptBind_ok] at hok
  obtain ⟨L, hL, hok⟩ := hok
  rw [exceptBind_ok] at hok
  obtain ⟨V, hV, hok⟩ := hok
  rw [exceptBind_ok] at hok
  obtain ⟨F, hF, hok⟩ := hok
  rw [exceptBind_ok] at hok
  obtain ⟨I, hI, hok⟩ := hok
  rw [exceptBind_ok] at hok
  obtain ⟨H, hH, hok⟩ := hok
  rw [exceptBind_ok] at hok
  obtain ⟨lang, hlang, hok⟩ := hok
  rw [exceptBind_ok] at hok
  obtain ⟨V1, hV1, hok⟩ := hok
  rw [exceptBind_ok] at hok
  obtain ⟨eo, heo, hok⟩ := hok
  rw [exceptBind_ok] at hok
  obtain ⟨vo, hvo, hok⟩ := hok
  rw [exceptBind_ok] at hok
  obtain ⟨ao, hao, hok⟩ := hok
  rw [exceptBind_ok] at hok
  obtain ⟨fo, hfo, hok⟩ := hok
  exact ⟨L, V, F, I, H, lang, V1, eo, vo, ao, fo, hL, hV, hF, hI, hH, hlang, hV1, heo,
    hvo, hao, hfo, by simpa using hok.symm⟩

/-- C6 (amended): when a nonempty emotions dict is present, the positive
bucket (and the vocal neutral bucket) contributes no key when its class
is absent; but the vocal negative bucket and the facial neutral and
negative buckets are always emitted, synthesized from zero defaults
(`emo_neg_inv = 100`, `facial_emo_neu = 0`, `facial_emo_dis_inv = 100`)
when their classes are absent. -/
theorem C6_emotion_buckets (spiky : PyDict) (o : Out)
    (hok : normalize_metrics spiky = Except.ok o) :
    (∀ V ve, getSection emptyHeap spiky ("vocal") = Except.ok V →
      asDict emptyHeap (orEmpty emptyHeap (getV V ("emotions"))) = some ve →
      ve.isEmpty = false →
      (getN ve ("happy") = Option.none → ("emo_pos") ∉ o.map Prod.fst) ∧
      (getN ve ("neutral") = Option.none → ("emo_neu") ∉ o.map Prod.fst) ∧
      (getN ve ("sad") = Option.none → getN ve ("angry") = Option.none →
        ((("emo_neg_inv"), some (100 : ℚ)) ∈ o))) ∧
    (∀ F fe, getSection emptyHeap spiky ("facial") = Except.ok F →
      asDict emptyHeap (orEmpty emptyHeap (getV F ("emotions"))) = some fe →
      fe.isEmpty = false →
      (getN fe ("happy") = Option.none → ("facial_emo_pos") ∉ o.map Prod.fst) ∧
      (getN fe ("neutral") = Option.none → getN fe ("surprised") = Option.none →
        ((("facial_emo_neu"), some (0 : ℚ)) ∈ o)) ∧
      (getN fe ("dissatisfied") = Option.none → getN fe ("annoyed") = Option.none →
        ((("facial_emo_dis_inv"), some (100 : ℚ)) ∈ o))) := by
  obtain ⟨L, V0, F0, I, H, lang, V1, eo, vo, ao, fo, hL, hV0, hF0, hI, hH, hlang, hV1,
    heo, hvo, hao, hfo, ho⟩ := normalize_metrics_parts hok
  subst ho
  constructor
  · intro V ve hV hve hne
    have hVeq : V = V0 := by
      have := hV.symm.trans hV0
      simpa using this
    subst hVeq
    have hemo : getV V1 ("emotions") = getV V ("emotions") :=
      vocalEnergyFix_emotions emptyHeap V V1 hV1
    have hve1 : asDict emptyHeap (orEmpty emptyHeap (getV V1 ("emotions"))) = some ve := by
      rw [hemo]
      exact hve
    obtain ⟨s, a, hs, ha, hvoeq⟩ := normVocalEmotions_char emptyHeap V1 hve1 hne hvo
    refine ⟨?_, ?_, ?_⟩
    · intro hhappy hmem
      simp only [List.map_append, List.mem_append] at hmem
      rcases hmem with ((((((hmem | hmem) | hmem) | hmem) | hmem) | hmem) | hmem)
      · have := keys_normLanguage hlang hmem
        simp at this
      · exact absurd (keys_normEnergy heo hmem) (by decide)
      · rw [hvoeq, hhappy] at hmem
        simp only [List.nil_append, List.map_append, List.mem_append] at hmem
        rcases hmem with hmem | hmem
        · split at hmem <;> simp_all
        · simp_all
      · rcases keys_normAttention hao hmem with h2 | h2 <;> simp at h2
      · rcases keys_normFacialEmotions hfo hmem with h2 | h2 | h2 <;> simp at h2
      · rcases keys_normInteraction hmem with h2 | h2 <;> simp at h2
      · rcases keys_normHighlevel hmem with h2 | h2 <;> simp at h2
    · intro hneu hmem
      simp only [List.map_append, List.mem_append] at hmem
      rcases hmem with ((((((hmem | hmem) | hmem) | hmem) | hmem) | hmem) | hmem)
      · have := keys_normLanguage hlang hmem
        simp at this
      · exact absurd (keys_normEnergy heo hmem) (by decide)
      · rw [hvoeq, hneu] at hmem
        simp only [List.map_append, List.mem_append] at hmem
        rcases hmem with (hmem | hmem) | hmem
        · split at hmem <;> simp_all
        · simp_all
        · simp_all
      · rcases keys_normAttention hao hmem with h2 | h2 <;> simp at h2
      · rcases keys_normFacialEmotions hfo hmem with h2 | h2 | h2 <;> simp at h2
      · rcases keys_normInteraction hmem with h2 | h2 <;> simp at h2
      · rcases keys_normHighlevel hmem with h2 | h2 <;> simp at h2
    · intro hsad hangry
      have hs0 : s = 0 := by
        have := (orZeroNum_absent emptyHeap ve ("sad") hsad).symm.trans hs
        simpa using this.symm
      have ha0 : a = 0 := by
        have := (orZeroNum_absent emptyHeap ve ("angry") hangry).symm.trans ha
        simpa using this.symm
      subst hs0 ha0
      have hval : inv100 (.num ((0 : ℚ) + 0)) = some 100 := by
        norm_num [inv100, to100, pyFloat?, to100q, clampQ, min_def, max_def]
      have hmem2 : ((("emo_neg_inv"), some (100 : ℚ)) ∈ vo) := by
        rw [hvoeq, ← hval]
        simp
      simp only [List.mem_append]
      exact Or.inl (Or.inl (Or.inl (Or.inl (Or.inr hmem2))))
  · intro F fe hF hfe hne
    have hFeq : F = F0 := by
      have := hF.symm.trans hF0
      simpa using this
    subst hFeq
    obtain ⟨n1, n2, d1, d2, hn1, hn2, hd1, hd2, hfoeq⟩ :=
      normFacialEmotions_char emptyHeap F hfe hne hfo
    refine ⟨?_, ?_, ?_⟩
    · intro hhappy hmem
      simp only [List.map_append, List.mem_append] at hmem
      rcases hmem with ((((((hmem | hmem) | hmem) | hmem) | hmem) | hmem) | hmem)
      · have := keys_normLanguage hlang hmem
        simp at this
      · exact absurd (keys_normEnergy heo hmem) (by decide)
      · rcases keys_normVocalEmotions hvo hmem with h2 | h2 | h2 <;> simp at h2
      · rcases keys_normAttention hao hmem with h2 | h2 <;> simp at h2
      · rw [hfoeq, hhappy] at hmem
        simp_all
      · rcases keys_normInteraction hmem with h2 | h2 <;> simp at h2
      · rcases keys_normHighlevel hmem with h2 | h2 <;> simp at h2
    · intro hneu hsur
      have hn10 : n1 = 0 := by
        have := (orZeroNum_absent emptyHeap fe ("neutral") hneu).symm.trans hn1
        simpa using this.symm
      have hn20 : n2 = 0 := by
        have := (orZeroNum_absent emptyHeap fe ("surprised") hsur).symm.trans hn2
        simpa using this.symm
      subst hn10 hn20
      have hval : to100 (.num ((0 : ℚ) + 0)) = some 0 := by
        norm_num [to100, pyFloat?, to100q, clampQ, min_def, max_def]
      have hmem2 : ((("facial_emo_neu"), some (0 : ℚ)) ∈ fo) := by
        rw [hfoeq, ← hval]
        simp
      simp only [List.mem_append]
      exact Or.inl (Or.inl (Or.inr hmem2))
    · intro hdis hann
      have hd10 : d1 = 0 := by
        have := (orZeroNum_absent emptyHeap fe ("dissatisfied") hdis).symm.trans hd1
        simpa using this.symm
      have hd20 : d2 = 0 := by
        have := (orZeroNum_absent emptyHeap fe ("annoyed") hann).symm.trans hd2
        simpa using this.symm
      subst hd10 hd20
      have hval : inv100 (.num ((0 : ℚ) + 0)) = some 100 := by
        norm_num [inv100, to100, pyFloat?, to100q, clampQ, min_def, max_def]
      have hmem2 : ((("facial_emo_dis_inv"), some (100 : ℚ)) ∈ fo) := by
        rw [hfoeq, ← hval]
        simp
      simp only [List.mem_append]
      exact Or.inl (Or.inl (Or.inr hmem2))

/-- C6 counterexample: a vocal emotions dict holding only `happy` - both
negative classes absent - still emits `emo_neg_inv` (synthesized from
zero defaults as 100), contradicting the claim that a bucket with all
classes absent contributes no key. -/
theorem C6_counterexample :
    normalize_metrics [(("vocal"), .dict [(("emotions"), .dict [(("happy"), .num 1)])])] =
      Except.ok [(("emo_pos"), some 100), (("emo_neg_inv"), some 100)] ∧
    ("emo_neg_inv") ∈
      ([(("emo_pos"), some (100 : ℚ)), (("emo_neg_inv"), some 100)] : Out).map Prod.fst := by
  constructor
  · have h : normalize_metrics
        [(("vocal"), .dict [(("emotions"), .dict [(("happy"), .num 1)])])] =
        Except.ok [(("emo_pos"), some (to100q 1)),
          (("emo_neg_inv"), some (100 - to100q (0 + 0)))] := rfl
    rw [h]
    norm_num [to100q, clampQ, min_def, max_def]
  · simp

/-- Witness for the amended C6: with only `neutral` present, `emo_pos` is
omitted while `emo_neg_inv` is synthesized as 100. -/
theorem C6_emotion_buckets_witness :
    ("emo_pos") ∉
      ([(("emo_neu"), some (50 : ℚ)), (("emo_neg_inv"), some 100)] : Out).map Prod.fst ∧
    ((("emo_neg_inv"), some (100 : ℚ)) ∈
      ([(("emo_neu"), some (50 : ℚ)), (("emo_neg_inv"), some 100)] : Out)) := by
  have hok : normalize_metrics
      [(("vocal"), .dict [(("emotions"), .dict [(("neutral"), .num (1/2))])])] =
      Except.ok [(("emo_neu"), some (to100q (1/2))), (("emo_neg_inv"), some (100 - to100q (0 + 0)))] := rfl
  have hok2 : normalize_metrics
      [(("vocal"), .dict [(("emotions"), .dict [(("neutral"), .num (1/2))])])] =
      Except.ok [(("emo_neu"), some (50 : ℚ)), (("emo_neg_inv"), some 100)] := by
    rw [hok]
    norm_num [to100q, clampQ, min_def, max_def]
  have h := (C6_emotion_buckets _ _ hok2).1
    [(("emotions"), .dict [(("neutral"), .num (1/2))])]
    [(("neutral"), .num (1/2))] rfl rfl rfl
  exact ⟨h.1 rfl, h.2.2 rfl rfl⟩

theorem getSection_ok {spiky : PyDict} {name : String}
    (h : sectionOk spiky name = true) :
    ∃ d, getSection emptyHeap spiky name = Except.ok d := by
  unfold sectionOk at h
  unfold getSection
  split
  · exact ⟨[], rfl⟩
  case h_2 v hv =>
    rw [hv] at h
    dsimp only at h
    split
    case isTrue ht =>
      rw [ht] at h
      simp only [Bool.not_true, Bool.false_or] at h
      obtain ⟨d, hd⟩ := Option.isSome_iff_exists.mp h
      rw [hd]
      exact ⟨d, rfl⟩
    · exact ⟨[], rfl⟩

theorem pyFloatE_ok {v : Val} (h : coercibleB v = true) : ∃ q, pyFloatE v = Except.ok q := by
  unfold coercibleB at h
  obtain ⟨q, hq⟩ := Option.isSome_iff_exists.mp h
  exact ⟨q, by simp [pyFloatE, hq]⟩

theorem orZeroNum_ok {v : Val} (h : numLikeB v = true) :
    ∃ q, orZeroNum emptyHeap v = Except.ok q := by
  unfold numLikeB at h
  unfold orZeroNum
  split at h
  case h_1 q hq =>
    exact ⟨q, rfl⟩
  case h_2 b hb =>
    exact ⟨if b then 1 else 0, rfl⟩
  · simp at h

theorem normPositivity_ok {L : PyDict} (h : posOk L = true) :
    ∃ o, normPositivity emptyHeap L = Except.ok o := by
  unfold posOk at h
  unfold normPositivity
  split
  case h_1 pc hpc =>
    rw [hpc] at h
    simp only [Bool.and_eq_true] at h
    obtain ⟨p, hp⟩ := pyFloatE_ok h.1.1
    obtain ⟨neu, hneu⟩ := pyFloatE_ok h.1.2
    obtain ⟨neg, hneg⟩ := pyFloatE_ok h.2
    rw [hp, bind_ok_left, hneu, bind_ok_left, hneg, bind_ok_left]
    exact ⟨_, rfl⟩
  · split
    · exact ⟨_, rfl⟩
    · exact ⟨[], rfl⟩

theorem normLanguage_ok {L : PyDict} (h : posOk L = true) :
    ∃ lang, normLanguage emptyHeap L = Except.ok lang := by
  obtain ⟨a, ha⟩ := normPositivity_ok h
  unfold normLanguage
  rw [ha, bind_ok_left]
  exact ⟨_, rfl⟩

theorem getV_not_hasK {d : PyDict} {k : String} (h : hasK d k = false) :
    getV d k = Option.none := by
  unfold hasK at h
  unfold getV
  rw [List.find?_eq_none.mpr]
  · rfl
  · intro p hp
    intro hpk
    have h2 : d.any (fun p => p.1 == k) = true := List.any_eq_true.mpr ⟨p, hp, hpk⟩
    rw [h2] at h
    exact Bool.true_eq_false.mp h

theorem getV_setV_same (d : PyDict) (k : String) (v : Val) :
    getV (setV d k v) k = some v := by
  unfold setV
  split
  case isTrue hk =>
    unfold getV
    induction d with
    | nil => simp [hasK] at hk
    | cons q t ih =>
      by_cases hq : q.1 = k
      · have h1 : (if (q.1 == k) = true then (k, v) else q) = (k, v) := by simp [hq]
        rw [List.map_cons, h1, List.find?_cons_of_pos]
        · rfl
        · simp
      · have h1 : (if (q.1 == k) = true then (k, v) else q) = q := by simp [hq]
        rw [List.map_cons, h1, List.find?_cons_of_neg]
        · apply ih
          unfold hasK at hk ⊢
          simp only [List.any_cons, Bool.or_eq_true] at hk
          rcases hk with hk | hk
          · exact absurd (by simpa using hk) hq
          · exact hk
        · simp [hq]
  case isFalse hk =>
    unfold getV
    rw [List.find?_append, List.find?_eq_none.mpr, Option.none_or]
    · simp
    · intro p hp hpk
      have h2 : hasK d k = true := List.any_eq_true.mpr ⟨p, hp, hpk⟩
      exact absurd h2 (by simp at hk ⊢; exact hk)

theorem hasK_of_getV {d : PyDict} {k : String} {v : Val} (h : getV d k = some v) :
    hasK d k = true := by
  unfold getV at h
  unfold hasK
  obtain ⟨p, hfind⟩ := Option.map_eq_some'.mp h
  have hp := List.find?_some hfind.1
  have hmem := List.mem_of_find?_eq_some hfind.1
  exact List.any_eq_true.mpr ⟨p, hmem, hp⟩

theorem getD_of_getV {d : PyDict} {k : String} {v : Val} (h : getV d k = some v) (dflt : Val) :
    getD d k dflt = v := by
  unfold getD
  rw [h]
  rfl

theorem orZeroNumO_ok {v : Option Val}
    (h : (match v with | some u => numLikeB u | Option.none => true) = true) :
    ∃ q, orZeroNumO emptyHeap v = Except.ok q := by
  cases v with
  | none => exact ⟨0, rfl⟩
  | some u => exact orZeroNum_ok h

theorem vocalEnergyFix_ok {V : PyDict} (hfix : energyFixOk V = true) :
    ∃ V1, vocalEnergyFix emptyHeap V = Except.ok V1 ∧
      (energyOk V = true → ∃ eo, normEnergy V1 = Except.ok eo) := by
  unfold energyFixOk at hfix
  unfold vocalEnergyFix
  split
  case h_1 ed hed =>
    rw [hed] at hfix
    simp only [Bool.and_eq_true] at hfix
    obtain ⟨e, he⟩ := pyFloatE_ok hfix.1
    obtain ⟨m, hm⟩ := pyFloatE_ok hfix.2
    rw [he, bind_ok_left, hm, bind_ok_left]
    refine ⟨_, rfl, fun _ => ?_⟩
    have hget := getV_setV_same V ("energy") (.num (if e > 0 then e else 1 - m))
    unfold normEnergy
    rw [if_pos (hasK_of_getV hget), getD_of_getV hget]
    exact ⟨_, rfl⟩
  case h_2 hnd =>
    refine ⟨V, rfl, fun heok => ?_⟩
    unfold energyOk at heok
    unfold normEnergy
    cases hgv : getV V ("energy") with
    | none =>
      rw [if_neg]
      · exact ⟨[], rfl⟩
      · intro hk
        unfold hasK at hk
        obtain ⟨p, hp, hpk⟩ := List.any_eq_true.mp hk
        have : (List.find? (fun p => p.1 == ("energy")) V).isSome := by
          rw [List.find?_isSome]
          exact ⟨p, hp, hpk⟩
        rw [show getV V ("energy") = (List.find? (fun p => p.1 == ("energy")) V).map Prod.snd
          from rfl] at hgv
        rcases Option.isSome_iff_exists.mp this with ⟨q, hq⟩
        rw [hq] at hgv
        simp at hgv
    | some v =>
      rw [hgv] at heok
      dsimp only at heok
      have hadn : asDict emptyHeap v = Option.none := by
        rw [hgv] at hnd
        simpa using hnd
      rw [hadn] at heok
      rw [if_pos (hasK_of_getV hgv), getD_of_getV hgv]
      match v, heok with
      | .num q, _ => exact ⟨_, rfl⟩
      | .bool b, _ => exact ⟨_, rfl⟩

theorem normVocalEmotions_ok {V : PyDict} (h : vocalEmosOk V = true) :
    ∃ o, normVocalEmotions emptyHeap V = Except.ok o := by
  unfold vocalEmosOk at h
  unfold normVocalEmotions
  split
  case h_1 ve hve =>
    rw [hve] at h
    dsimp only at h
    split
    · exact ⟨[], rfl⟩
    case isFalse hne =>
      simp only [Bool.not_eq_true] at hne
      rw [hne] at h
      simp only [Bool.false_or, Bool.and_eq_true] at h
      obtain ⟨s, hs⟩ := orZeroNum_ok h.1
      obtain ⟨a, ha⟩ := orZeroNum_ok h.2
      rw [hs, bind_ok_left, ha, bind_ok_left]
      exact ⟨_, rfl⟩
  · exact ⟨[], rfl⟩

theorem normVocalEmotions_congr (h : Heap) {V V1 : PyDict}
    (he : getV V1 ("emotions") = getV V ("emotions")) :
    normVocalEmotions h V1 = normVocalEmotions h V := by
  unfold normVocalEmotions
  rw [he]

theorem normAttention_ok {F : PyDict} (h : attentionOk F = true) :
    ∃ o, normAttention emptyHeap F = Except.ok o := by
  unfold attentionOk at h
  unfold normAttention
  split
  case h_1 att hatt =>
    rw [hatt] at h
    dsimp only at h
    split
    · exact ⟨[], rfl⟩
    case isFalse hne =>
      simp only [Bool.not_eq_true] at hne
      rw [hne] at h
      simp only [Bool.false_or] at h
      have hap : ∃ ap, (match getN att ("attentive"), getN att ("normal") with
          | Option.none, Option.none => Except.ok ([] : Out)
          | a, b => do
            let x ← orZeroNumO emptyHeap a
            let y ← orZeroNumO emptyHeap b
            Except.ok [(("attention_att"), to100 (.num (x + (1/2) * y)))]) =
          Except.ok ap := by
        cases hA : getN att ("attentive") with
        | none =>
          cases hB : getN att ("normal") with
          | none => exact ⟨[], rfl⟩
          | some u =>
            rw [hA, hB] at h
            simp only [Bool.true_and] at h
            obtain ⟨y, hy⟩ := orZeroNum_ok h
            dsimp only
            rw [show orZeroNumO emptyHeap (Option.none : Option Val) = Except.ok 0 from rfl,
              bind_ok_left, show orZeroNumO emptyHeap (some u) = orZeroNum emptyHeap u from rfl,
              hy, bind_ok_left]
            exact ⟨_, rfl⟩
        | some u =>
          rw [hA] at h
          cases hB : getN att ("normal") with
          | none =>
            rw [hB] at h
            simp only [Bool.and_true] at h
            obtain ⟨x, hx⟩ := orZeroNum_ok h
            dsimp only
            rw [show orZeroNumO emptyHeap (some u) = orZeroNum emptyHeap u from rfl, hx,
              bind_ok_left, show orZeroNumO emptyHeap (Option.none : Option Val) = Except.ok 0
              from rfl, bind_ok_left]
            exact ⟨_, rfl⟩
          | some w =>
            rw [hB] at h
            simp only [Bool.and_eq_true] at h
            obtain ⟨x, hx⟩ := orZeroNum_ok h.1
            obtain ⟨y, hy⟩ := orZeroNum_ok h.2
            dsimp only
            rw [show orZeroNumO emptyHeap (some u) = orZeroNum emptyHeap u from rfl, hx,
              bind_ok_left, show orZeroNumO emptyHeap (some w) = orZeroNum emptyHeap w from rfl,
              hy, bind_ok_left]
            exact ⟨_, rfl⟩
      obtain ⟨ap, hap2⟩ := hap
      rw [hap2, bind_ok_left]
      exact ⟨_, rfl⟩
  · exact ⟨[], rfl⟩

theorem normFacialEmotions_ok {F : PyDict} (h : facialEmosOk F = true) :
    ∃ o, normFacialEmotions emptyHeap F = Except.ok o := by
  unfold facialEmosOk at h
  unfold normFacialEmotions
  split
  case h_1 fe hfe =>
    rw [hfe] at h
    dsimp only at h
    split
    · exact ⟨[], rfl⟩
    case isFalse hne =>
      simp only [Bool.not_eq_true] at hne
      rw [hne] at h
      simp only [Bool.false_or, Bool.and_eq_true] at h
      obtain ⟨n1, hn1⟩ := orZeroNum_ok h.1.1.1
      obtain ⟨n2, hn2⟩ := orZeroNum_ok h.1.1.2
      obtain ⟨d1, hd1⟩ := orZeroNum_ok h.1.2
      obtain ⟨d2, hd2⟩ := orZeroNum_ok h.2
      rw [hn1, bind_ok_left, hn2, bind_ok_left, hd1, bind_ok_left, hd2, bind_ok_left]
      exact ⟨_, rfl⟩
  · exact ⟨[], rfl⟩

/-- C3 (amended): metric normalization never raises provided each section
is a mapping (or absent/falsy) and the positivity-class, vocal-energy,
emotion-class and attention-class values - the positions the source feeds
to bare `float(...)`, an order comparison, or `+`/`*` arithmetic - are
numeric; a value anywhere else that cannot be coerced never raises (its
derived key is simply bound to the absent `None` marker). Outside these
conditions normalization can raise, so the claim's unconditional
"never raises" is false. -/
theorem C3_wellTyped_no_raise (spiky : PyDict) (h : wellTyped spiky = true) :
    ∃ o, normalize_metrics spiky = Except.ok o := by
  unfold wellTyped at h
  simp only [Bool.and_eq_true] at h
  obtain ⟨⟨⟨⟨⟨⟨⟨hsl, hsv⟩, hsf⟩, hsi⟩, hsh⟩, hpl⟩, hvl⟩, hfl⟩ := h
  obtain ⟨L, hL⟩ := getSection_ok hsl
  obtain ⟨V, hV⟩ := getSection_ok hsv
  obtain ⟨F, hF⟩ := getSection_ok hsf
  obtain ⟨I, hI⟩ := getSection_ok hsi
  obtain ⟨H, hH⟩ := getSection_ok hsh
  rw [hL] at hpl
  rw [hV] at hvl
  rw [hF] at hfl
  dsimp only at hpl hvl hfl
  simp only [Bool.and_eq_true] at hvl hfl
  obtain ⟨lang, hlang⟩ := normLanguage_ok hpl
  obtain ⟨V1, hV1, hEo⟩ := vocalEnergyFix_ok hvl.1.1
  obtain ⟨eo, heo⟩ := hEo hvl.1.2
  have hemo := vocalEnergyFix_emotions emptyHeap V V1 hV1
  obtain ⟨vo, hvo⟩ := normVocalEmotions_ok hvl.2
  have hvo1 : normVocalEmotions emptyHeap V1 = Except.ok vo := by
    rw [normVocalEmotions_congr emptyHeap hemo]
    exact hvo
  obtain ⟨ao, hao⟩ := normAttention_ok hfl.1
  obtain ⟨fo, hfo⟩ := normFacialEmotions_ok hfl.2
  unfold normalize_metrics
  rw [hL, bind_ok_left, hV, bind_ok_left, hF, bind_ok_left, hI, bind_ok_left, hH,
     bind_ok_left, hlang, bind_ok_left, hV1, bind_ok_left, heo, bind_ok_left, hvo1,
     bind_ok_left, hao, bind_ok_left, hfo, bind_ok_left]
  exact ⟨_, rfl⟩

/-- C3 counterexample: a string in `vocal.energy` reaches the raw
`V["energy"] <= 1` comparison and raises a `TypeError` instead of being
treated as absent, so normalization is not raise-free on arbitrary
bundles. -/
theorem C3_counterexample :
    normalize_metrics [(("vocal"), .dict [(("energy"), .str ("loud"))])] =
      Except.error ("TypeError: comparison not supported between value and int") := rfl

/-- Witness for the amended C3: a well-typed bundle whose `filler_ratio`
is an uncoercible dict normalizes without raising. -/
theorem C3_wellTyped_no_raise_witness :
    ∃ o, normalize_metrics [(("language"), .dict [(("filler_ratio"), .dict [])])] =
      Except.ok o :=
  C3_wellTyped_no_raise [(("language"), .dict [(("filler_ratio"), .dict [])])] rfl

theorem find?_replace_ne_nat {β : Type} (t : List (ℕ × β)) {k x : ℕ} (v : β)
    (hx : x ≠ k) :
    List.find? (fun p => p.1 == x) (t.map (fun p => if p.1 == k then (k, v) else p)) =
    List.find? (fun p => p.1 == x) t := by
  induction t with
  | nil => rfl
  | cons p t ih =>
    by_cases hp : p.1 = k
    · have h1 : (if (p.1 == k) = true then (k, v) else p) = (k, v) := by simp [hp]
      rw [List.map_cons, h1, List.find?_cons_of_neg, List.find?_cons_of_neg, ih]
      · simp [hp, Ne.symm hx]
      · simp [Ne.symm hx]
    · have h1 : (if (p.1 == k) = true then (k, v) else p) = p := by simp [hp]
      rw [List.map_cons, h1]
      cases hpx : (p.1 == x)
      · rw [List.find?_cons_of_neg, List.find?_cons_of_neg, ih] <;> simp [hpx]
      · rw [List.find?_cons_of_pos, List.find?_cons_of_pos] <;> simp [hpx]

theorem hget_hset_ne (h : Heap) {r t : ℕ} (d : PyDict) (hrt : r ≠ t) :
    hget (hset h t d) r = hget h r := by
  unfold hset hget
  rw [find?_replace_ne_nat _ _ hrt]

theorem hget_halloc_lt (h : Heap) (d : PyDict) {r : ℕ} (hr : r < h.next) :
    hget (halloc h d).2 r = hget h r := by
  unfold halloc hget
  rw [List.find?_cons_of_neg]
  simp only [beq_iff_eq]
  omega

/-- Frame property of the heap-model normalizer: every dict object that
existed before the call (id below the allocation bound) is unchanged
afterwards; the only heap writes target the five freshly allocated
section copies. -/
theorem normalize_heap_frame (h0 : Heap) (bref : ℕ) (out : Out) (h' : Heap)
    (hok : normalize_heap h0 bref = Except.ok (out, h')) :
    ∀ r, r < h0.next → hget h' r = hget h0 r := by
  unfold normalize_heap at hok
  cases hb : hget h0 bref with
  | none =>
    rw [hb] at hok
    dsimp only at hok
    rw [show ((Except.error ("invalid bundle reference") : Except String PyDict) >>= _) =
      (Except.error ("invalid bundle reference") : Except String (Out × Heap)) from rfl] at hok
    exact absurd hok (by simp)
  | some spiky =>
  rw [hb] at hok
  dsimp only at hok
  rw [bind_ok_left] at hok
  rw [exceptBind_ok] at hok
  obtain ⟨lC, hlC, hok⟩ := hok
  rw [exceptBind_ok] at hok
  obtain ⟨vC, hvC, hok⟩ := hok
  rw [exceptBind_ok] at hok
  obtain ⟨fC, hfC, hok⟩ := hok
  rw [exceptBind_ok] at hok
  obtain ⟨iC, hiC, hok⟩ := hok
  rw [exceptBind_ok] at hok
  obtain ⟨hC, hhC, hok⟩ := hok
  try dsimp only at hok
  rw [exceptBind_ok] at hok
  obtain ⟨lang, hlang, hok⟩ := hok
  try dsimp only at hok
  rw [exceptBind_ok] at hok
  obtain ⟨vC1, hfix, hok⟩ := hok
  try dsimp only at hok
  rw [exceptBind_ok] at hok
  obtain ⟨eo, heo, hok⟩ := hok
  rw [exceptBind_ok] at hok
  obtain ⟨vo, hvo, hok⟩ := hok
  rw [exceptBind_ok] at hok
  obtain ⟨ao, hao, hok⟩ := hok
  rw [exceptBind_ok] at hok
  obtain ⟨fo, hfo, hok⟩ := hok
  have hh : h' = hset (hset (halloc (halloc (halloc (halloc (halloc h0 lC).2 vC).2 fC).2
      iC).2 hC).2 (halloc h0 lC).1 lang.2) (halloc (halloc h0 lC).2 vC).1 vC1 := by
    have h2 := hok
    simp only [Except.ok.injEq, Prod.mk.injEq] at h2
    exact h2.2.symm
  subst hh
  intro r hr
  have e1 : (halloc h0 lC).1 = h0.next := rfl
  have e2 : (halloc (halloc h0 lC).2 vC).1 = h0.next + 1 := rfl
  rw [hget_hset_ne _ _ (by rw [e2]; omega), hget_hset_ne _ _ (by rw [e1]; omega),
     hget_halloc_lt _ _ (show r < h0.next + 4 by omega),
     hget_halloc_lt _ _ (show r < h0.next + 3 by omega),
     hget_halloc_lt _ _ (show r < h0.next + 2 by omega),
     hget_halloc_lt _ _ (show r < h0.next + 1 by omega),
     hget_halloc_lt _ _ hr]

/-- C9: running a scoring request through the heap model leaves every
pre-existing dict object - in particular the caller's signal bundle and
all of its section mappings - unchanged: only metric normalization even
receives the bundle, and it writes solely to the fresh `dict(...)`
copies it allocates. -/
theorem C9_no_input_mutation (sq : ℚ → ℚ) (W : Weights) (mult : Multipliers)
    (h0 : Heap) (bref : ℕ) (order : List String) (res : ScoreResult) (h1 : Heap)
    (hok : score_one_heap sq W mult h0 bref order = Except.ok (res, h1)) :
    ∀ r, r < h0.next → hget h1 r = hget h0 r := by
  unfold score_one_heap at hok
  rw [exceptBind_ok] at hok
  obtain ⟨nh, hnh, hok⟩ := hok
  rw [exceptBind_ok] at hok
  obtain ⟨bases, hbases, hok⟩ := hok
  rw [exceptBind_ok] at hok
  obtain ⟨scores, hscores, hok⟩ := hok
  rw [exceptBind_ok] at hok
  obtain ⟨align, halign, hok⟩ := hok
  have hh : h1 = nh.2 := by
    have h2 := hok
    simp only [Except.ok.injEq, Prod.mk.injEq] at h2
    exact h2.2.symm
  subst hh
  exact normalize_heap_frame h0 bref nh.1 nh.2 (by rw [← hnh])

set_option maxHeartbeats 1000000 in
/-- Witness for C9: a concrete two-object heap (bundle at id 0, its
language section at id 1) is unchanged at both pre-existing ids after a
full scoring run. -/
theorem C9_no_input_mutation_witness :
    ∃ res h1,
      score_one_heap (fun _ => 0) [] ⟨3/2, 6/5, 1, 1/2⟩
        ⟨[(0, [(("language"), .ref 1)]), (1, [])], 2⟩ 0
        [("Precision"), ("Resolve"), ("Innovation"), ("Harmony")] =
        Except.ok (res, h1) ∧
      hget h1 0 = hget ⟨[(0, [(("language"), .ref 1)]), (1, [])], 2⟩ 0 ∧
      hget h1 1 = hget ⟨[(0, [(("language"), .ref 1)]), (1, [])], 2⟩ 1 := by
  refine ⟨_, _, rfl, ?_, ?_⟩
  · exact C9_no_input_mutation (fun _ => 0) [] ⟨3/2, 6/5, 1, 1/2⟩
      ⟨[(0, [(("language"), .ref 1)]), (1, [])], 2⟩ 0
      [("Precision"), ("Resolve"), ("Innovation"), ("Harmony")] _ _ rfl 0 (by norm_num)
  · exact C9_no_input_mutation (fun _ => 0) [] ⟨3/2, 6/5, 1, 1/2⟩
      ⟨[(0, [(("language"), .ref 1)]), (1, [])], 2⟩ 0
      [("Precision"), ("Resolve"), ("Innovation"), ("Harmony")] _ _ rfl 1 (by norm_num)
